import Mathlib

/-!
Verification of the Airtable-to-Cvent session sync tool.

This file shallowly embeds the two Python modules of the repository:

* `main.py` — the session field-sync job: timestamp conversion
  (`convert_airtable_to_cvent_datetime`), the lightweight markdown rewriter
  (`convert_markdown_to_html`), the payload merge of `update_cvent_session`,
  the modified-record fetch transform (`get_modified_airtable_sessions`) and
  the speaker roster reconciliation (`update_session_speakers`).
* `sessions_dedup_sync.py` — the speaker/session dedup mirror job
  (`process_airtable_data`): classification of synthesized relationship
  records into create/update/delete lists, batched execution, and the
  watermark/exit-code control flow.

Python dictionaries are modelled as association lists with insertion-order
semantics (assignment to an existing key keeps its position, a new key is
appended), Python values by the small inductive `PyVal`, and fallible code
returns `Option` (`none` models an uncaught exception).
-/

/-- A Python value, as far as the scripts inspect values: strings, lists,
string-keyed dicts, and `None`.  (The scripts never branch on numbers or
booleans in the modelled code paths.) -/
inductive PyVal where
  | vStr (s : String)
  | vList (l : List PyVal)
  | vDict (d : List (String × PyVal))
  | vNone

/-- Structural equality test for `PyVal` (written by hand because the
inductive is nested). -/
def pvBeq : PyVal → PyVal → Bool
  | .vStr a, .vStr b => a = b
  | .vNone, .vNone => true
  | .vList [], .vList [] => true
  | .vList (x :: xs), .vList (y :: ys) => pvBeq x y && pvBeq (.vList xs) (.vList ys)
  | .vDict [], .vDict [] => true
  | .vDict ((k1, v1) :: xs), .vDict ((k2, v2) :: ys) =>
      k1 = k2 && pvBeq v1 v2 && pvBeq (.vDict xs) (.vDict ys)
  | _, _ => false

theorem pvBeq_iff : ∀ (a b : PyVal), pvBeq a b = true ↔ a = b
  | .vStr a, .vStr b => by simp [pvBeq]
  | .vStr _, .vNone => by simp [pvBeq]
  | .vStr _, .vList _ => by simp [pvBeq]
  | .vStr _, .vDict _ => by simp [pvBeq]
  | .vNone, .vStr _ => by simp [pvBeq]
  | .vNone, .vNone => by simp [pvBeq]
  | .vNone, .vList _ => by simp [pvBeq]
  | .vNone, .vDict _ => by simp [pvBeq]
  | .vList _, .vStr _ => by simp [pvBeq]
  | .vList _, .vNone => by simp [pvBeq]
  | .vList _, .vDict _ => by simp [pvBeq]
  | .vDict _, .vStr _ => by simp [pvBeq]
  | .vDict _, .vNone => by simp [pvBeq]
  | .vDict _, .vList _ => by simp [pvBeq]
  | .vList [], .vList [] => by simp [pvBeq]
  | .vList [], .vList (_ :: _) => by simp [pvBeq]
  | .vList (_ :: _), .vList [] => by simp [pvBeq]
  | .vList (x :: xs), .vList (y :: ys) => by
      have h1 := pvBeq_iff x y
      have h2 := pvBeq_iff (.vList xs) (.vList ys)
      simp [pvBeq, h1, h2]
  | .vDict [], .vDict [] => by simp [pvBeq]
  | .vDict [], .vDict (_ :: _) => by simp [pvBeq]
  | .vDict (_ :: _), .vDict [] => by simp [pvBeq]
  | .vDict ((k1, v1) :: xs), .vDict ((k2, v2) :: ys) => by
      have h1 := pvBeq_iff v1 v2
      have h2 := pvBeq_iff (.vDict xs) (.vDict ys)
      simp [pvBeq, h1, h2, and_assoc]

instance : DecidableEq PyVal := fun a b => decidable_of_iff _ (pvBeq_iff a b)

/-- First binding of a key in an association list (Python `dict` lookup:
keys in these dicts are unique, so first = only). -/
def alistLookup {κ α : Type} [DecidableEq κ] : List (κ × α) → κ → Option α
  | [], _ => none
  | (k, v) :: rest, key => if k = key then some v else alistLookup rest key

/-- Python `d.get(key, default)`: the stored value when the key is present
(even when the stored value is `None`), otherwise the default. -/
def alistGetD {κ α : Type} [DecidableEq κ] (d : List (κ × α)) (k : κ) (dflt : α) : α :=
  match alistLookup d k with
  | some v => v
  | none => dflt

/-- Python dict assignment `d[k] = v`: overwrite in place when the key is
present (keeping its position), append otherwise. -/
def alistInsert {κ α : Type} [DecidableEq κ] : List (κ × α) → κ → α → List (κ × α)
  | [], key, v => [(key, v)]
  | (k, w) :: rest, key, v =>
      if k = key then (k, v) :: rest else (k, w) :: alistInsert rest key v

/-- A Python dict with string keys and `PyVal` values. -/
abbrev PyDict := List (String × PyVal)

/-- `key in d` for a Python dict. -/
def dmem (d : PyDict) (k : String) : Bool := (alistLookup d k).isSome

/-- `d.get(k)`: stored value, or `vNone` when absent (Python returns the
`None` object in both the stored-`None` and the absent case). -/
def dget (d : PyDict) (k : String) : PyVal :=
  match alistLookup d k with
  | some v => v
  | none => PyVal.vNone

/-- Python truthiness of the modelled values. -/
def pyTruthy : PyVal → Bool
  | PyVal.vStr s => s ≠ ""
  | PyVal.vList l => !l.isEmpty
  | PyVal.vDict d => !d.isEmpty
  | PyVal.vNone => false

/-! ### `convert_markdown_to_html` (main.py lines 353-372)

Four `re.sub` passes followed by wrapping in one `<p>` pair.  Each pass is a
left-to-right scan; a lazy group `(.*?)` grows one non-newline character at a
time, trying the closing delimiter first at every position, which is exactly
"shortest group ending at the first occurrence of the closing delimiter with
no newline in between".  When a match attempt at an opening delimiter fails,
the regex engine advances a single character, as the scanners below do. -/

/-- Whitespace as matched by Python's `\s` on ASCII input. -/
def pyIsSpace (c : Char) : Bool :=
  c = ' ' || c = '\t' || c = '\n' || c = '\r' || c = '\x0b' || c = '\x0c'

/-- Lazy search for `\s\_\*\*` (the tail of `\*\*\_(.*?)\s\_\*\*`): returns
the group and the remainder after the closing `_**`.  The group may not
contain a newline (`.` without DOTALL); the `\s` itself may be a newline,
and close is tried before extending the group (lazy). -/
def findCloseCombined : List Char → Option (List Char × List Char)
  | [] => none
  | c :: rest =>
      if pyIsSpace c ∧ rest.take 3 = ['_', '*', '*'] then some ([], rest.drop 3)
      else if c = '\n' then none
      else match findCloseCombined rest with
           | some (g, r) => some (c :: g, r)
           | none => none

/-- Pass 1: `re.sub(r'\*\*\_(.*?)\s\_\*\*', r'<strong><i>\1</i></strong>', text)`.
On a failed match attempt the engine advances one character. -/
def subCombined : Nat → List Char → List Char
  | 0, s => s
  | _ + 1, [] => []
  | fuel + 1, c :: rest =>
      if c = '*' ∧ rest.take 2 = ['*', '_'] then
        match findCloseCombined (rest.drop 2) with
        | some (g, r) =>
            "<strong><i>".data ++ g ++ "</i></strong>".data ++ subCombined fuel r
        | none => '*' :: subCombined fuel rest
      else c :: subCombined fuel rest

/-- Lazy search for a closing `\*\*` with no newline before it. -/
def findCloseStars : List Char → Option (List Char × List Char)
  | [] => none
  | c :: rest =>
      if c = '*' ∧ rest.head? = some '*' then some ([], rest.tail)
      else if c = '\n' then none
      else match findCloseStars rest with
           | some (g, r) => some (c :: g, r)
           | none => none

/-- Pass 2: `re.sub(r'\*\*(.*?)\*\*', r'<strong>\1</strong>', html)`. -/
def subBold : Nat → List Char → List Char
  | 0, s => s
  | _ + 1, [] => []
  | fuel + 1, c :: rest =>
      if c = '*' ∧ rest.head? = some '*' then
        match findCloseStars rest.tail with
        | some (g, r) => "<strong>".data ++ g ++ "</strong>".data ++ subBold fuel r
        | none => '*' :: subBold fuel rest
      else c :: subBold fuel rest

/-- Lazy search for a closing `\_` with no newline before it. -/
def findCloseUnderscore : List Char → Option (List Char × List Char)
  | [] => none
  | c :: rest =>
      if c = '_' then some ([], rest)
      else if c = '\n' then none
      else match findCloseUnderscore rest with
           | some (g, r) => some (c :: g, r)
           | none => none

/-- Pass 3: `re.sub(r'\_(.*?)\_', r'<i>\1</i>', html)`. -/
def subItalic : Nat → List Char → List Char
  | 0, s => s
  | _ + 1, [] => []
  | fuel + 1, c :: rest =>
      if c = '_' then
        match findCloseUnderscore rest with
        | some (g, r) => "<i>".data ++ g ++ "</i>".data ++ subItalic fuel r
        | none => '_' :: subItalic fuel rest
      else c :: subItalic fuel rest

/-- Greedy `[^x]+` up to the first `x`: the run of non-`x` characters (which
must be nonempty for the caller) and the remainder after the `x`. -/
def splitAtChar (stop : Char) : List Char → Option (List Char × List Char)
  | [] => none
  | c :: rest =>
      if c = stop then some ([], rest)
      else match splitAtChar stop rest with
           | some (g, r) => some (c :: g, r)
           | none => none

/-- Pass 4: `re.sub(r'\[([^\]]+)\]\(([^)]+)\)', r'<a href="\2">\1</a>', html)`.
Both character classes admit newlines. -/
def subLink : Nat → List Char → List Char
  | 0, s => s
  | _ + 1, [] => []
  | fuel + 1, c :: rest =>
      if c = '[' then
        match splitAtChar ']' rest with
        | some (t, r1) =>
            if t = [] then '[' :: subLink fuel rest
            else if r1.head? = some '(' then
              match splitAtChar ')' r1.tail with
              | some (u, r3) =>
                  if u = [] then '[' :: subLink fuel rest
                  else "<a href=\"".data ++ u ++ "\">".data ++ t ++ "</a>".data
                         ++ subLink fuel r3
              | none => '[' :: subLink fuel rest
            else '[' :: subLink fuel rest
        | none => '[' :: subLink fuel rest
      else c :: subLink fuel rest

/-- The four substitution passes of `convert_markdown_to_html`, in program
order, on the character list of the input. -/
def markdownPasses (l : List Char) : List Char :=
  let h1 := subCombined l.length l
  let h2 := subBold h1.length h1
  let h3 := subItalic h2.length h2
  subLink h3.length h3

/-- `convert_markdown_to_html` (main.py lines 353-372): empty (falsy) input
returns `""`; otherwise the rewritten text wrapped in a single `<p>` pair. -/
def convert_markdown_to_html (markdown_text : String) : String :=
  if markdown_text = "" then ""
  else "<p>" ++ String.mk (markdownPasses markdown_text.data) ++ "</p>"

/-! ### `convert_airtable_to_cvent_datetime` (main.py lines 51-59)

`datetime.strptime(s, "%m/%d/%Y %I:%M %p")`, then `pytz` Pacific
localization and conversion to UTC, formatted as `%Y-%m-%dT%H:%M:%S.000Z`.
CPython's `_strptime` compiles the format to a regex with `IGNORECASE`,
turning each whitespace run in the format into `\s+` and using the
alternations `1[0-2]|0[1-9]|[1-9]` (`%m`, `%I`), `3[01]|[12]\d|0[1-9]|[1-9]`
(`%d`), `\d\d\d\d` (`%Y`), `[0-5]\d|\d` (`%M`), `AM|PM` (`%p`); the match
must consume the whole string.  Because every numeric field is followed by a
non-digit in this format, the greedy two-digits-else-one reading below is
equivalent to the regex's backtracking.  `datetime(...)` then validates the
day against the month length and `ValueError` is caught (returning `None`);
an `OverflowError` from the arithmetic (UTC instant past year 9999) is NOT
caught and propagates.

The America/Los_Angeles zone is modelled with the tz-database rule in force
since 2007 (DST from 2:00 standard time on the second Sunday of March to
2:00 daylight time on the first Sunday of November, offsets UTC-8/UTC-7);
`localize` is called without `is_dst`, i.e. `is_dst=False`: nonexistent and
ambiguous wall times resolve to the standard offset.  `strftime` padding of
`%Y` below year 1000 is platform-dependent and modelled as zero-padded;
the tool's data lies in the 2000s, where all platforms agree. -/

def digitVal (c : Char) : Nat := c.toNat - 48

/-- `%m` and `%I`: `1[0-2]|0[1-9]|[1-9]`. -/
def parseMonthField : List Char → Option (Nat × List Char)
  | c1 :: c2 :: rest =>
      if c1.isDigit && c2.isDigit then
        let v := digitVal c1 * 10 + digitVal c2
        if 1 ≤ v && v ≤ 12 then some (v, rest) else none
      else if c1.isDigit && 1 ≤ digitVal c1 then some (digitVal c1, c2 :: rest)
      else none
  | [c1] => if c1.isDigit && 1 ≤ digitVal c1 then some (digitVal c1, []) else none
  | [] => none

/-- `%d`: `3[01]|[12]\d|0[1-9]|[1-9]`. -/
def parseDayField : List Char → Option (Nat × List Char)
  | c1 :: c2 :: rest =>
      if c1.isDigit && c2.isDigit then
        let v := digitVal c1 * 10 + digitVal c2
        if 1 ≤ v && v ≤ 31 then some (v, rest) else none
      else if c1.isDigit && 1 ≤ digitVal c1 then some (digitVal c1, c2 :: rest)
      else none
  | [c1] => if c1.isDigit && 1 ≤ digitVal c1 then some (digitVal c1, []) else none
  | [] => none

/-- `%M`: `[0-5]\d|\d`. -/
def parseMinuteField : List Char → Option (Nat × List Char)
  | c1 :: c2 :: rest =>
      if c1.isDigit && c2.isDigit then
        if digitVal c1 ≤ 5 then some (digitVal c1 * 10 + digitVal c2, rest) else none
      else if c1.isDigit then some (digitVal c1, c2 :: rest)
      else none
  | [c1] => if c1.isDigit then some (digitVal c1, []) else none
  | [] => none

/-- `%Y`: exactly four digits. -/
def parseYearField : List Char → Option (Nat × List Char)
  | a :: b :: c :: d :: rest =>
      if a.isDigit && b.isDigit && c.isDigit && d.isDigit then
        some (digitVal a * 1000 + digitVal b * 100 + digitVal c * 10 + digitVal d, rest)
      else none
  | _ => none

/-- A literal character of the format string. -/
def parseLit (ch : Char) : List Char → Option (List Char)
  | c :: rest => if c = ch then some rest else none
  | [] => none

/-- A whitespace run in the format: `\s+` (greedy; always followed by a
non-whitespace pattern here, so maximal munch is exact). -/
def parseSpaces : List Char → Option (List Char)
  | c :: rest => if pyIsSpace c then some (rest.dropWhile pyIsSpace) else none
  | [] => none

/-- `%p`: `AM|PM`, case-insensitive; `true` means PM. -/
def parseAmPm : List Char → Option (Bool × List Char)
  | c1 :: c2 :: rest =>
      if (c1 = 'A' || c1 = 'a') && (c2 = 'M' || c2 = 'm') then some (false, rest)
      else if (c1 = 'P' || c1 = 'p') && (c2 = 'M' || c2 = 'm') then some (true, rest)
      else none
  | _ => none

def isLeapYear (y : Nat) : Bool := y % 4 = 0 && (y % 100 ≠ 0 || y % 400 = 0)

def daysInMonth (y m : Nat) : Nat :=
  if m = 2 then (if isLeapYear y then 29 else 28)
  else if m = 4 || m = 6 || m = 9 || m = 11 then 30
  else 31

/-- `datetime.strptime(s, "%m/%d/%Y %I:%M %p")` as
`(year, month, day, hour24, minute)`; `none` models `ValueError`. -/
def strptimeAirtable (s : String) : Option (Nat × Nat × Nat × Nat × Nat) := do
  let (mo, r1) ← parseMonthField s.data
  let r2 ← parseLit '/' r1
  let (d, r3) ← parseDayField r2
  let r4 ← parseLit '/' r3
  let (y, r5) ← parseYearField r4
  let r6 ← parseSpaces r5
  let (h12, r7) ← parseMonthField r6
  let r8 ← parseLit ':' r7
  let (mi, r9) ← parseMinuteField r8
  let r10 ← parseSpaces r9
  let (pm, r11) ← parseAmPm r10
  if r11 = [] then
    let hh := if pm then (if h12 = 12 then 12 else h12 + 12)
              else (if h12 = 12 then 0 else h12)
    if 1 ≤ y && d ≤ daysInMonth y mo then some (y, mo, d, hh, mi) else none
  else none

/-- Days since 0000-03-01 of the proleptic Gregorian calendar
(Hinnant's `days_from_civil`, specialized to years ≥ 1). -/
def daysFromCivil (y m d : Nat) : Nat :=
  let yAdj := if m ≤ 2 then y - 1 else y
  let era := yAdj / 400
  let yoe := yAdj % 400
  let mp := if m > 2 then m - 3 else m + 9
  let doy := (153 * mp + 2) / 5 + d - 1
  let doe := yoe * 365 + yoe / 4 - yoe / 100 + doy
  era * 146097 + doe

/-- Inverse of `daysFromCivil` (Hinnant's `civil_from_days`). -/
def civilFromDays (n : Nat) : Nat × Nat × Nat :=
  let era := n / 146097
  let doe := n % 146097
  let yoe := (doe - doe / 1460 + doe / 36524 - doe / 146096) / 365
  let yAdj := yoe + era * 400
  let doy := doe - (365 * yoe + yoe / 4 - yoe / 100)
  let mp := (5 * doy + 2) / 153
  let d := doy - (153 * mp + 2) / 5 + 1
  let m := if mp < 10 then mp + 3 else mp - 9
  (if m ≤ 2 then yAdj + 1 else yAdj, m, d)

/-- Day of month of the second Sunday of March (`daysFromCivil _ % 7 = 4`
is a Sunday: day 0, 0000-03-01, is a Wednesday). -/
def secondSundayOfMarch (y : Nat) : Nat :=
  1 + (4 + 7 - daysFromCivil y 3 1 % 7) % 7 + 7

/-- Day of month of the first Sunday of November. -/
def firstSundayOfNov (y : Nat) : Nat :=
  1 + (4 + 7 - daysFromCivil y 11 1 % 7) % 7

/-- Whether the naive Pacific wall time is in daylight saving, following
`pytz.localize` with `is_dst=False`: daylight exactly from wall time 3:00 on
the second Sunday of March (the first instant after the spring-forward gap)
up to but not including wall time 1:00 on the first Sunday of November
(ambiguous times resolve to standard). -/
def isPacificDST (y mo d hh mi : Nat) : Bool :=
  let t := daysFromCivil y mo d * 1440 + hh * 60 + mi
  let dstStart := daysFromCivil y 3 (secondSundayOfMarch y) * 1440 + 3 * 60
  let dstEnd := daysFromCivil y 11 (firstSundayOfNov y) * 1440 + 1 * 60
  dstStart ≤ t && t < dstEnd

/-- Result of `convert_airtable_to_cvent_datetime`: a returned string, the
caught-`ValueError` `None` return, or an uncaught exception. -/
inductive ConvResult where
  | ok (s : String)
  | failed
  | raised
deriving DecidableEq

def natDigit (k : Nat) : Char := Char.ofNat (48 + k % 10)

def pad2 (n : Nat) : List Char := [natDigit (n / 10), natDigit n]

def pad4 (n : Nat) : List Char :=
  [natDigit (n / 1000), natDigit (n / 100), natDigit (n / 10), natDigit n]

/-- `dt.strftime("%Y-%m-%dT%H:%M:%S.000Z")` with seconds always 0. -/
def fmtUTC (y mo d hh mi : Nat) : String :=
  String.mk (pad4 y ++ '-' :: pad2 mo ++ '-' :: pad2 d ++ 'T' :: pad2 hh
    ++ ':' :: pad2 mi ++ ":00.000Z".data)

/-- The UTC instant, in minutes since 0000-03-01: the parsed wall time plus
the UTC offset (7 h during Pacific daylight saving, 8 h standard). -/
def utcMinutesOf (y mo d hh mi : Nat) : Nat :=
  daysFromCivil y mo d * 1440 + hh * 60 + mi
    + (if isPacificDST y mo d hh mi then 420 else 480)

/-- The conversion applied to a successfully parsed wall time.  Python's
`astimezone` arithmetic raises `OverflowError` exactly when the UTC instant
exceeds `datetime.max` (9999-12-31 23:59:59...), i.e. exactly when the UTC
civil year exceeds 9999 (the parsed time has seconds 0, so the boundary
cases agree). -/
def convertCore (y mo d hh mi : Nat) : ConvResult :=
  if (civilFromDays (utcMinutesOf y mo d hh mi / 1440)).1 > 9999 then ConvResult.raised
  else
    ConvResult.ok (fmtUTC (civilFromDays (utcMinutesOf y mo d hh mi / 1440)).1
      (civilFromDays (utcMinutesOf y mo d hh mi / 1440)).2.1
      (civilFromDays (utcMinutesOf y mo d hh mi / 1440)).2.2
      (utcMinutesOf y mo d hh mi % 1440 / 60) (utcMinutesOf y mo d hh mi % 60))

/-- `convert_airtable_to_cvent_datetime` (main.py lines 51-59). -/
def convert_airtable_to_cvent_datetime (s : String) : ConvResult :=
  match strptimeAirtable s with
  | none => ConvResult.failed
  | some (y, mo, d, hh, mi) => convertCore y mo d hh mi

/-! ### `update_cvent_session` payload merge (main.py lines 375-443)

The payload-construction part of `update_cvent_session`, up to the PUT
request: from the partial change-set `session_data` and the freshly fetched
`existing_session`, build the update payload.  `none` models an uncaught
exception (`.strip()` on a non-string).  Note the asymmetry the code has:
`title`, `start` and `end` use `session_data.get(key, existing...)`, which
falls back to the remote value only when the KEY IS ABSENT — a present key
with a blank string or `None` value is copied into the payload as-is — while
description/location/type and the additional fields test the supplied value
for blankness. -/

/-- Lines 398-402: the description branch. -/
def descriptionValue (session_data existing_session : PyDict) : Option PyVal :=
  match alistLookup session_data "description" with
  | some (PyVal.vStr s) =>
      if s.trim = "" then some (alistGetD existing_session "description" (PyVal.vStr ""))
      else some (PyVal.vStr (convert_markdown_to_html s))
  | some _ => none
  | none => some (alistGetD existing_session "description" (PyVal.vStr ""))

/-- Lines 407-415: the location branch (`locations` is the
`CVENT_SESSION_LOCATIONS` name-to-id snapshot; the raw, unstripped supplied
string is used for the lookup; a falsy looked-up id falls back). -/
def locationValue (locations : List (String × String)) (session_data existing_session : PyDict) :
    Option PyVal :=
  match alistLookup session_data "location" with
  | some (PyVal.vStr s) =>
      if s.trim = "" then some (dget existing_session "location")
      else
        match alistLookup locations s with
        | some locId =>
            if locId = "" then some (dget existing_session "location")
            else some (PyVal.vDict [("id", PyVal.vStr locId)])
        | none => some (dget existing_session "location")
  | some _ => none
  | none => some (dget existing_session "location")

/-- Lines 419-424: the type branch (`new_type and new_type.strip()`). -/
def typeValue (session_data existing_session : PyDict) : Option PyVal :=
  match dget session_data "type" with
  | PyVal.vStr s =>
      if s ≠ "" && s.trim ≠ "" then some (PyVal.vDict [("name", PyVal.vStr s.trim)])
      else some (dget existing_session "type")
  | PyVal.vNone => some (dget existing_session "type")
  | v => if pyTruthy v then none else some (dget existing_session "type")

/-- Lines 428-435. -/
def additional_fields : List String :=
  ["code", "category", "automaticallyOpensOn", "automaticallyClosesOn",
   "enableWaitlist", "waitlistCapacity", "enableWaitlistVirtual",
   "capacity", "capacityUnlimited", "capacityVirtual", "virtualCapacityUnlimited",
   "waitlistCapacityVirtual", "displayOnAgenda", "featured", "group",
   "admissionItems", "openForRegistration", "openForAttendeeHub",
   "registrationTypes", "presentationType", "dataTagCode", "status"]

/-- Lines 437-443: one iteration of the additional-fields loop; `none` means
the field is not added to the payload. -/
def mergeAdditionalField (session_data existing_session : PyDict) (f : String) :
    Option (String × PyVal) :=
  let nv := dget session_data f
  let nv' := match nv with
    | PyVal.vNone => dget existing_session f
    | PyVal.vStr s => if s.trim = "" then dget existing_session f else PyVal.vStr s
    | v => v
  match nv' with
  | PyVal.vNone => none
  | v => some (f, v)

/-- The payload `update_cvent_session` sends (lines 392-443).  All keys
written are distinct, so sequential dict assignment is a list literal. -/
def update_cvent_session_payload (eventId : String) (locations : List (String × String))
    (session_data existing_session : PyDict) : Option PyDict :=
  match descriptionValue session_data existing_session with
  | none => none
  | some dv =>
    match locationValue locations session_data existing_session with
    | none => none
    | some lv =>
      match typeValue session_data existing_session with
      | none => none
      | some tv =>
        some ([("event", PyVal.vDict [("id", PyVal.vStr eventId)]),
               ("title", alistGetD session_data "title" (dget existing_session "title")),
               ("description", dv),
               ("start", alistGetD session_data "start_time" (dget existing_session "start")),
               ("end", alistGetD session_data "end_time" (dget existing_session "end")),
               ("location", lv),
               ("type", tv)]
              ++ additional_fields.filterMap (mergeAdditionalField session_data existing_session))

/-! ### `get_modified_airtable_sessions` (main.py lines 61-102)

The pure transform from the fetched records to the
`{cvent_session_id: session_data}` dictionary.  Only records whose fields
contain `"Cvent Session ID"` contribute; the dict-comprehension key is that
field's raw value. -/

structure AirtableRecord where
  id : String
  fields : PyDict
deriving DecidableEq

/-- The per-record value dictionary of the comprehension (lines 88-100),
as a structure; `typeText` is the `"type"` entry, `tags` the `"tags"`
entry. -/
structure SessionData where
  record_id : String
  title : String
  start_time : Option String
  end_time : Option String
  description : String
  location : String
  speakers : List String
  moderators : List String
  stage : String
  typeText : String
  tags : List PyVal
deriving DecidableEq

/-- `fields.get(key, "").strip()`: `none` models the `AttributeError` on a
present non-string value. -/
def strField (fields : PyDict) (key : String) : Option String :=
  match alistGetD fields key (PyVal.vStr "") with
  | PyVal.vStr s => some s.trim
  | _ => none

/-- `convert_airtable_to_cvent_datetime(fields.get(key, ""))`: `strptime` on
a non-string raises `TypeError`; an uncaught `OverflowError` in the
conversion also propagates. -/
def convField (fields : PyDict) (key : String) : Option (Option String) :=
  match alistGetD fields key (PyVal.vStr "") with
  | PyVal.vStr s =>
      match convert_airtable_to_cvent_datetime s with
      | ConvResult.ok t => some (some t)
      | ConvResult.failed => some none
      | ConvResult.raised => none
  | _ => none

/-- Iterating a Python value whose elements are `.strip()`-ed: a string
yields its characters as one-character strings, a list must contain strings,
a dict yields its keys, `None` is not iterable (`TypeError`). -/
def pyIterStrs : PyVal → Option (List String)
  | PyVal.vStr s => some (s.data.map (fun c => String.mk [c]))
  | PyVal.vList l => l.mapM (fun v => match v with | PyVal.vStr s => some s | _ => none)
  | PyVal.vDict d => some (d.map Prod.fst)
  | PyVal.vNone => none

/-- `[code.strip() for code in l if code.strip()]`. -/
def stripCodes (l : List String) : List String :=
  (l.map String.trim).filter (fun s => s ≠ "")

/-- `[code.strip() for code in fields.get(key, "") if code.strip()]`. -/
def codesField (fields : PyDict) (key : String) : Option (List String) :=
  match pyIterStrs (alistGetD fields key (PyVal.vStr "")) with
  | some l => some (stripCodes l)
  | none => none

/-- `fields.get(key, []) if isinstance(fields.get(key), list) else []`. -/
def tagsField (fields : PyDict) (key : String) : List PyVal :=
  match dget fields key with
  | PyVal.vList l => l
  | _ => []

/-- The value dictionary built for one record (lines 88-100); note the
code reads `"Moderator code"` and `"W Channel Text"` here even though the
modification filter lists `"Moderator Code"` and `"S Stage"`. -/
def mkSessionData (r : AirtableRecord) : Option SessionData :=
  match strField r.fields "Session Title (<100 characters)",
        convField r.fields "S25 Start Date/Time",
        convField r.fields "S25 End Date/Time",
        strField r.fields "Description (<2500 characters)",
        strField r.fields "W Room Text",
        codesField r.fields "Speaker Code (from Speaker)",
        codesField r.fields "Moderator code",
        strField r.fields "W Channel Text",
        strField r.fields "W Presentation Type Text" with
  | some title, some st, some en, some de, some lo, some sp, some md, some st2, some ty =>
      some ⟨r.id, title, st, en, de, lo, sp, md, st2, ty,
            tagsField r.fields "Website Tags (SELECT 3 MAX)"⟩
  | _, _, _, _, _, _, _, _, _ => none

/-- Python dict keys must be hashable; a list or dict key raises
`TypeError`. -/
def pyHashable : PyVal → Bool
  | PyVal.vList _ => false
  | PyVal.vDict _ => false
  | _ => true

/-- The dict comprehension of lines 87-102, over the already-fetched
records, building the result in iteration order (a later record with the
same `"Cvent Session ID"` value overwrites in place). -/
def get_modified_aux (acc : List (PyVal × SessionData)) :
    List AirtableRecord → Option (List (PyVal × SessionData))
  | [] => some acc
  | r :: rest =>
      match alistLookup r.fields "Cvent Session ID" with
      | none => get_modified_aux acc rest
      | some kv =>
          if pyHashable kv then
            match mkSessionData r with
            | some sd => get_modified_aux (alistInsert acc kv sd) rest
            | none => none
          else none

/-- `get_modified_airtable_sessions` (lines 61-102) after the fetch: the
returned mapping, whose items the main loop of `check_and_update_sessions`
then feeds one by one to `update_cvent_session`. -/
def get_modified_airtable_sessions (records : List AirtableRecord) :
    Option (List (PyVal × SessionData)) :=
  get_modified_aux [] records

/-! ### `update_session_speakers` (main.py lines 314-348)

The desired mapping is derived from the Airtable speaker/moderator codes via
the `AVAILABLE_SPEAKERS` code-to-id snapshot; the category ids come from the
`CVENT_SPEAKER_CATEGORIES` snapshot via `.get`, hence `Option String`
(`None` when the category name is missing).  The current remote mapping
`{speaker_id: category_id}` has unique keys (it is a Python dict).  The
function then issues all removals, then all adds. -/

/-- One network call issued by `update_session_speakers`. -/
inductive SpkCall where
  | remove (speakerId : String)
  | add (speakerId : String) (categoryId : Option String)
deriving DecidableEq

/-- `{AVAILABLE_SPEAKERS[code]: cat for code in codes if code in AVAILABLE_SPEAKERS}`
folded into an insertion-ordered dict starting from `acc` (lines 323-327:
building each comprehension and `{**a, **b}` are both sequential inserts). -/
def codesToIds (available : List (String × String)) (cat : Option String) :
    List String → List (String × Option String) → List (String × Option String)
  | [], acc => acc
  | c :: rest, acc =>
      match alistLookup available c with
      | some sid => codesToIds available cat rest (alistInsert acc sid cat)
      | none => codesToIds available cat rest acc

/-- Line 330-333 condition: `sid not in all_airtable_speakers or
all_airtable_speakers[sid] != current_category`. -/
def removeCond (allAirtable : List (String × Option String)) (p : String × String) : Bool :=
  match alistLookup allAirtable p.1 with
  | none => true
  | some cat => decide (cat ≠ some p.2)

/-- Line 336-340 condition: `sid not in current_speakers or
current_speakers[sid] != category_id`. -/
def addCond (current : List (String × String)) (p : String × Option String) : Bool :=
  match alistLookup current p.1 with
  | none => true
  | some c => decide (p.2 ≠ some c)

/-- The desired `{person: category}` mapping (`all_airtable_speakers`,
lines 323-327). -/
def all_airtable_speakers (available : List (String × String))
    (speaker_category_id moderator_category_id : Option String)
    (speakerCodes moderatorCodes : List String) : List (String × Option String) :=
  codesToIds available moderator_category_id moderatorCodes
    (codesToIds available speaker_category_id speakerCodes [])

/-- The calls `update_session_speakers` issues, in order: every
`remove_speaker_from_session` (lines 343-344), then every
`assign_speaker_to_session` (lines 347-348). -/
def update_session_speakers_calls (available : List (String × String))
    (speaker_category_id moderator_category_id : Option String)
    (speakerCodes moderatorCodes : List String)
    (current_speakers : List (String × String)) : List SpkCall :=
  let allA := all_airtable_speakers available speaker_category_id moderator_category_id
                speakerCodes moderatorCodes
  let to_remove := (current_speakers.filter (removeCond allA)).map Prod.fst
  let to_add := allA.filter (addCond current_speakers)
  to_remove.map SpkCall.remove ++ to_add.map (fun p => SpkCall.add p.1 p.2)

/-! ### `process_airtable_data` (sessions_dedup_sync.py lines 18-232)

The dedup/mirror engine.  Source speaker rows expand into one synthesized
relationship per (record, session-link, role); existing mirror rows are
keyed by the string `speaker + "_" + session + "_" + role` into
`existing_record_map` when all three parts are non-empty (later rows
overwrite earlier map entries); synthesized records whose key is in the map
become updates, the rest creates; deletions are the map entries (full
cleanup) or all mirror rows of processed speakers (incremental) whose key is
not in `valid_combinations`. -/

/-- A source speaker row: the fields the job reads.  `Speaking`/`Moderating`
hold linked-record ids; the code wraps a bare non-list value into a
one-element list and skips falsy values, which `LinkField.toList` captures
observably. -/
inductive LinkField where
  | absent
  | single (s : String)
  | many (l : List String)
deriving DecidableEq

/-- Lines 87-91 / 120-124: `fields.get(key, [])`, skip if falsy, wrap a
non-list into a one-element list. -/
def LinkField.toList : LinkField → List String
  | .absent => []
  | .single s => if s = "" then [] else [s]
  | .many l => l

structure SpeakerRecord where
  id : String
  name : String
  sChannel : List String
  speaking : LinkField
  moderating : LinkField
deriving DecidableEq

/-- The field set written to a mirror row (lines 98-104). -/
structure MirrorFields where
  name : String
  speaker : List String
  session : List String
  role : String
  sChannel : List String
deriving DecidableEq

/-- A destination (mirror) table row. -/
structure MirrorRecord where
  id : String
  flds : MirrorFields
deriving DecidableEq

/-- Lines 64-66: `fields.get('Speaker', [''])[0] if fields.get('Speaker') else ''`. -/
def speakerRef (r : MirrorRecord) : String := r.flds.speaker.headD ""

def sessionRef (r : MirrorRecord) : String := r.flds.session.headD ""

/-- `speaker_id + "_" + session_id + "_" + role`. -/
def mkKey (spk sess role : String) : String := spk ++ "_" ++ sess ++ "_" ++ role

def rowKey (r : MirrorRecord) : String := mkKey (speakerRef r) (sessionRef r) r.flds.role

def rowTriple (r : MirrorRecord) : String × String × String :=
  (speakerRef r, sessionRef r, r.flds.role)

/-- Line 68: a mirror row enters the map only when speaker, session and role
are all non-empty. -/
def completeRow (r : MirrorRecord) : Bool :=
  speakerRef r ≠ "" && sessionRef r ≠ "" && r.flds.role ≠ ""

/-- `existing_record_map` (lines 61-70): key-to-row-id, later rows
overwriting earlier ones. -/
def existing_record_map : List MirrorRecord → List (String × String) → List (String × String)
  | [], acc => acc
  | er :: rest, acc =>
      existing_record_map rest
        (if completeRow er then alistInsert acc (rowKey er) er.id else acc)

/-- One synthesized relationship (one iteration of the loops at lines
94-117 and 127-150). -/
structure Combo where
  recordId : String
  sessionId : String
  role : String
  name : String
  sChannel : List String
deriving DecidableEq

def comboKey (c : Combo) : String := mkKey c.recordId c.sessionId c.role

/-- The `session_fields` dict for a synthesized relationship. -/
def comboFields (c : Combo) : MirrorFields :=
  ⟨c.name, [c.recordId], [c.sessionId], c.role, c.sChannel⟩

/-- All synthesized relationships of one source row: its `Speaking` links
(role `"Speaking"`), then its `Moderating` links (role `"Moderating"`). -/
def recordCombos (r : SpeakerRecord) : List Combo :=
  r.speaking.toList.map (fun s => ⟨r.id, s, "Speaking", r.name, r.sChannel⟩)
  ++ r.moderating.toList.map (fun s => ⟨r.id, s, "Moderating", r.name, r.sChannel⟩)

/-- All synthesized relationships of the run, in loop order. -/
def synthCombos (records : List SpeakerRecord) : List Combo :=
  records.foldr (fun r acc => recordCombos r ++ acc) []

/-- `valid_combinations` (a Python set; only membership is used, so the key
list stands in for it). -/
def validCombinations (records : List SpeakerRecord) : List String :=
  (synthCombos records).map comboKey

/-- Classification of the synthesized records into `records_to_create` and
`records_to_update` (lines 106-117 / 139-150), preserving loop order. -/
def classifyCombos (emap : List (String × String)) :
    List Combo → List MirrorFields × List (String × MirrorFields)
  | [] => ([], [])
  | c :: cs =>
      let (crs, ups) := classifyCombos emap cs
      match alistLookup emap (comboKey c) with
      | some rid => (crs, (rid, comboFields c) :: ups)
      | none => (comboFields c :: crs, ups)

/-- `records_to_delete` in full-cleanup mode (lines 155-159): iterate the
MAP's items, not the rows. -/
def deleteIdsFull (emap : List (String × String)) (valid : List String) : List String :=
  emap.foldr (fun p acc => if p.1 ∈ valid then acc else p.2 :: acc) []

/-- `records_to_delete` in incremental mode (lines 160-174): iterate all
existing rows, restricted to processed speakers, with no completeness
check. -/
def deleteIdsIncr (existing : List MirrorRecord) (processedIds : List String)
    (valid : List String) : List String :=
  existing.foldr
    (fun er acc =>
      if speakerRef er ∈ processedIds ∧ rowKey er ∉ valid then er.id :: acc else acc) []

/-- The three operation lists one run computes. -/
structure DedupPlan where
  recordsToCreate : List MirrorFields
  recordsToUpdate : List (String × MirrorFields)
  recordsToDelete : List String
deriving DecidableEq

/-- The pure planning core of `process_airtable_data` (lines 60-178), after
the two fetches. -/
def process_airtable_data_plan (records : List SpeakerRecord)
    (existing : List MirrorRecord) (full_cleanup : Bool) : DedupPlan :=
  let emap := existing_record_map existing []
  let combos := synthCombos records
  let valid := validCombinations records
  let (crs, ups) := classifyCombos emap combos
  let dels :=
    if full_cleanup then deleteIdsFull emap valid
    else deleteIdsIncr existing (records.map (fun r => r.id)) valid
  ⟨crs, ups, dels⟩

/-- One `if r.id = uid then overwrite fields` step of `batch_update`. -/
def applyOneUpdate (r : MirrorRecord) (u : String × MirrorFields) : MirrorRecord :=
  if r.id = u.1 then ⟨r.id, u.2⟩ else r

/-- All updates applied to one row. -/
def applyUpdatesTo (ups : List (String × MirrorFields)) (r : MirrorRecord) : MirrorRecord :=
  ups.foldl applyOneUpdate r

/-- The mirror table after the run's batches: updates overwrite fields at
their target ids, deleted ids are removed, created rows are appended with
fresh Airtable-generated ids (fresh ids never collide with existing ones,
which is modelled by updating/deleting only pre-existing rows and appending
creations). -/
def freshRows : Nat → List MirrorFields → List MirrorRecord
  | _, [] => []
  | i, f :: rest => MirrorRecord.mk ("fresh" ++ Nat.repr i) f :: freshRows (i + 1) rest

def applyDedupPlan (existing : List MirrorRecord) (p : DedupPlan) : List MirrorRecord :=
  ((existing.map (applyUpdatesTo p.recordsToUpdate)).filter
      (fun r => r.id ∉ p.recordsToDelete))
    ++ freshRows 0 p.recordsToCreate

/-! ### Batched execution and control flow (lines 180-232, 250-259)

`for i in range(0, len(l), batch_size): batch = l[i:i+batch_size]` with
`batch_size = 10`, a `time.sleep(0.5)` after every batch call, phases in the
order create, update, delete; then `update_last_sync_time()` (which swallows
its own exceptions); any exception inside the `try` is caught at line 230,
logged as `ERROR: An error occurred: <msg>` and turned into `sys.exit(1)`. -/

/-- The `l[i:i+10]` slices of the batch loops. -/
def chunks10F {α : Type} : Nat → List α → List (List α)
  | 0, _ => []
  | _ + 1, [] => []
  | fuel + 1, l => l.take 10 :: chunks10F fuel (l.drop 10)

def batches10 {α : Type} (l : List α) : List (List α) := chunks10F l.length l

/-- One externally visible operation of the batch-execution phase. -/
inductive Op where
  | createBatch (b : List MirrorFields)
  | updateBatch (b : List (String × MirrorFields))
  | deleteBatch (b : List String)
  | sleep
deriving DecidableEq

/-- One batch loop: each iteration performs the batch call, then sleeps. -/
def phaseOps {α : Type} (f : List α → Op) : List (List α) → List Op
  | [] => []
  | b :: bs => f b :: Op.sleep :: phaseOps f bs

/-- The operation trace of lines 180-223: create batches, then update
batches, then delete batches. -/
def executePhases (p : DedupPlan) : List Op :=
  phaseOps Op.createBatch (batches10 p.recordsToCreate)
  ++ phaseOps Op.updateBatch (batches10 p.recordsToUpdate)
  ++ phaseOps Op.deleteBatch (batches10 p.recordsToDelete)

/-- An externally visible event of one whole `process_airtable_data` run. -/
inductive JobEv where
  | fetchSource
  | fetchDest
  | createBatch (b : List MirrorFields)
  | updateBatch (b : List (String × MirrorFields))
  | deleteBatch (b : List String)
  | sleep
  | writeWatermark
  | logLine (s : String)
deriving DecidableEq

def opEv : Op → JobEv
  | Op.createBatch b => JobEv.createBatch b
  | Op.updateBatch b => JobEv.updateBatch b
  | Op.deleteBatch b => JobEv.deleteBatch b
  | Op.sleep => JobEv.sleep

/-- Which events can raise: the fetches and the batch API calls.  `sleep`
does not raise, and `update_last_sync_time` catches its own exceptions
(lines 250-259), so the watermark write never propagates one. -/
def canRaise : JobEv → Bool
  | JobEv.fetchSource => true
  | JobEv.fetchDest => true
  | JobEv.createBatch _ => true
  | JobEv.updateBatch _ => true
  | JobEv.deleteBatch _ => true
  | JobEv.sleep => false
  | JobEv.writeWatermark => false
  | JobEv.logLine _ => false

/-- The event sequence a run attempts inside the `try` block, in program
order: fetch source, fetch destination, the batch phases, then the
watermark write. -/
def dedupJobPlan (records : List SpeakerRecord) (existing : List MirrorRecord)
    (full_cleanup : Bool) : List JobEv :=
  JobEv.fetchSource :: JobEv.fetchDest ::
    ((executePhases (process_airtable_data_plan records existing full_cleanup)).map opEv
      ++ [JobEv.writeWatermark])

/-- Execute the planned events with a failure oracle: `orc i = some msg`
makes the `i`-th event raise `msg` (if that event can raise), aborting the
rest; the result is the trace of completed events and the raised message. -/
def runEvents : List JobEv → (Nat → Option String) → Nat → List JobEv × Option String
  | [], _, _ => ([], none)
  | e :: rest, orc, i =>
      match (if canRaise e then orc i else none) with
      | some msg => ([], some msg)
      | none =>
          let p := runEvents rest orc (i + 1)
          (e :: p.1, p.2)

/-- A whole run of `process_airtable_data` under a failure oracle: the
completed-event trace (plus the `except` block's error line when a raise
occurred) and the process exit code (`sys.exit(1)` at line 232, 0
otherwise). -/
def process_airtable_data_run (records : List SpeakerRecord) (existing : List MirrorRecord)
    (full_cleanup : Bool) (orc : Nat → Option String) : List JobEv × Nat :=
  match runEvents (dedupJobPlan records existing full_cleanup) orc 0 with
  | (t, none) => (t, 0)
  | (t, some m) => (t ++ [JobEv.logLine ("ERROR: An error occurred: " ++ m)], 1)


/-- Number of newline characters in a character list. -/
def countNl : List Char → Nat
  | [] => 0
  | c :: rest => (if c = '\n' then 1 else 0) + countNl rest

theorem countNl_append (a b : List Char) : countNl (a ++ b) = countNl a + countNl b := by
  induction a with
  | nil => simp [countNl]
  | cons c rest ih => simp [countNl, ih]; omega

theorem countNl_eq_zero_of_not_mem {g : List Char} (h : '\n' ∉ g) : countNl g = 0 := by
  induction g with
  | nil => simp [countNl]
  | cons c rest ih =>
      simp only [List.mem_cons, not_or] at h
      have hc : ¬ c = '\n' := fun hh => h.1 hh.symm
      simp [countNl, hc, ih h.2]

/-- A successful bold-close search decomposes the input around `**` with a
newline-free group. -/
theorem findCloseStars_spec : ∀ (s g r : List Char), findCloseStars s = some (g, r) →
    s = g ++ '*' :: '*' :: r ∧ '\n' ∉ g := by
  intro s
  induction s with
  | nil => intro g r h; simp [findCloseStars] at h
  | cons c rest ih =>
      intro g r h
      simp only [findCloseStars] at h
      by_cases h1 : c = '*' ∧ rest.head? = some '*'
      · rw [if_pos h1] at h
        simp only [Option.some.injEq, Prod.mk.injEq] at h
        obtain ⟨hg, hr⟩ := h
        obtain ⟨hc, hh⟩ := h1
        cases rest with
        | nil => simp at hh
        | cons a t =>
            simp only [List.head?_cons, Option.some.injEq] at hh
            subst hc; subst hh; subst hg; subst hr
            simp
      · rw [if_neg h1] at h
        by_cases h2 : c = '\n'
        · rw [if_pos h2] at h; simp at h
        · rw [if_neg h2] at h
          cases hf : findCloseStars rest with
          | none => rw [hf] at h; simp at h
          | some p =>
              obtain ⟨g0, r0⟩ := p
              rw [hf] at h
              simp only [Option.some.injEq, Prod.mk.injEq] at h
              obtain ⟨hg, hr⟩ := h
              obtain ⟨hs, hn⟩ := ih g0 r0 hf
              subst hg; subst hr
              constructor
              · rw [hs]; rfl
              · simp only [List.mem_cons, not_or]
                exact ⟨fun hc => h2 hc.symm, hn⟩

/-- The bold pass neither deletes nor creates newline characters. -/
theorem subBold_countNl : ∀ (fuel : Nat) (s : List Char),
    countNl (subBold fuel s) = countNl s := by
  intro fuel
  induction fuel with
  | zero => intro s; simp [subBold]
  | succ n ih =>
      intro s
      cases s with
      | nil => simp [subBold]
      | cons c rest =>
          simp only [subBold]
          by_cases h1 : c = '*' ∧ rest.head? = some '*'
          · rw [if_pos h1]
            cases hf : findCloseStars rest.tail with
            | none => simp [countNl, ih, h1.1]
            | some p =>
                obtain ⟨g, r⟩ := p
                obtain ⟨hs, hn⟩ := findCloseStars_spec rest.tail g r hf
                obtain ⟨hc, hh⟩ := h1
                cases rest with
                | nil => simp at hh
                | cons a t =>
                    simp only [List.head?_cons, Option.some.injEq] at hh
                    subst hc; subst hh
                    simp only [List.tail_cons] at hs
                    rw [hs]
                    simp [countNl_append, countNl, ih, countNl_eq_zero_of_not_mem hn]
          · rw [if_neg h1]
            simp [countNl, ih]

/-- A successful italic-close search decomposes the input around `_` with a
newline-free group. -/
theorem findCloseUnderscore_spec : ∀ (s g r : List Char), findCloseUnderscore s = some (g, r) →
    s = g ++ '_' :: r ∧ '\n' ∉ g := by
  intro s
  induction s with
  | nil => intro g r h; simp [findCloseUnderscore] at h
  | cons c rest ih =>
      intro g r h
      simp only [findCloseUnderscore] at h
      by_cases h1 : c = '_'
      · rw [if_pos h1] at h
        simp only [Option.some.injEq, Prod.mk.injEq] at h
        obtain ⟨hg, hr⟩ := h
        subst h1; subst hg; subst hr
        simp
      · rw [if_neg h1] at h
        by_cases h2 : c = '\n'
        · rw [if_pos h2] at h; simp at h
        · rw [if_neg h2] at h
          cases hf : findCloseUnderscore rest with
          | none => rw [hf] at h; simp at h
          | some p =>
              obtain ⟨g0, r0⟩ := p
              rw [hf] at h
              simp only [Option.some.injEq, Prod.mk.injEq] at h
              obtain ⟨hg, hr⟩ := h
              obtain ⟨hs, hn⟩ := ih g0 r0 hf
              subst hg; subst hr
              constructor
              · rw [hs]; rfl
              · simp only [List.mem_cons, not_or]
                exact ⟨fun hc => h2 hc.symm, hn⟩

/-- The italic pass neither deletes nor creates newline characters. -/
theorem subItalic_countNl : ∀ (fuel : Nat) (s : List Char),
    countNl (subItalic fuel s) = countNl s := by
  intro fuel
  induction fuel with
  | zero => intro s; simp [subItalic]
  | succ n ih =>
      intro s
      cases s with
      | nil => simp [subItalic]
      | cons c rest =>
          simp only [subItalic]
          by_cases h1 : c = '_'
          · rw [if_pos h1]
            subst h1
            cases hf : findCloseUnderscore rest with
            | none => simp [countNl, ih]
            | some p =>
                obtain ⟨g, r⟩ := p
                obtain ⟨hs, hn⟩ := findCloseUnderscore_spec rest g r hf
                rw [hs]
                simp [countNl_append, countNl, ih, countNl_eq_zero_of_not_mem hn]
          · rw [if_neg h1]
            simp [countNl, ih]

/-- A successful `[^x]+`-then-`x` split decomposes the input. -/
theorem splitAtChar_spec (stop : Char) : ∀ (s g r : List Char),
    splitAtChar stop s = some (g, r) → s = g ++ stop :: r := by
  intro s
  induction s with
  | nil => intro g r h; simp [splitAtChar] at h
  | cons c rest ih =>
      intro g r h
      simp only [splitAtChar] at h
      by_cases h1 : c = stop
      · rw [if_pos h1] at h
        simp only [Option.some.injEq, Prod.mk.injEq] at h
        obtain ⟨hg, hr⟩ := h
        subst h1; subst hg; subst hr
        simp
      · rw [if_neg h1] at h
        cases hf : splitAtChar stop rest with
        | none => rw [hf] at h; simp at h
        | some p =>
            obtain ⟨g0, r0⟩ := p
            rw [hf] at h
            simp only [Option.some.injEq, Prod.mk.injEq] at h
            obtain ⟨hg, hr⟩ := h
            subst hg; subst hr
            rw [ih g0 r0 hf]
            rfl

/-- The link pass neither deletes nor creates newline characters (both
captured groups are kept in the replacement and no delimiter is a
newline). -/
theorem subLink_countNl : ∀ (fuel : Nat) (s : List Char),
    countNl (subLink fuel s) = countNl s := by
  intro fuel
  induction fuel with
  | zero => intro s; simp [subLink]
  | succ n ih =>
      intro s
      cases s with
      | nil => simp [subLink]
      | cons c rest =>
          simp only [subLink]
          by_cases h1 : c = '['
          · rw [if_pos h1]
            subst h1
            cases hsp : splitAtChar ']' rest with
            | none => simp [countNl, ih]
            | some p =>
                obtain ⟨t, r1⟩ := p
                have hts := splitAtChar_spec ']' rest t r1 hsp
                by_cases ht : t = []
                · simp [ht, countNl, ih]
                · cases r1 with
                  | nil => simp [ht, countNl, ih]
                  | cons d r2 =>
                      by_cases hd : d = '('
                      · subst hd
                        cases hsp2 : splitAtChar ')' r2 with
                        | none => simp [hsp2, ht, countNl, ih]
                        | some q =>
                            obtain ⟨u, r3⟩ := q
                            have hus := splitAtChar_spec ')' r2 u r3 hsp2
                            by_cases hu : u = []
                            · simp [hsp2, ht, hu, countNl, ih]
                            · subst hts
                              subst hus
                              simp [hsp2, ht, hu, countNl_append, countNl, ih]
                              omega
                      · simp [ht, hd, countNl, ih]
          · rw [if_neg h1]
            simp [countNl, ih]


/-- C10 (amended).  `convert_markdown_to_html` returns `""` on empty input;
otherwise it returns the input rewritten by the four substitution passes
wrapped in exactly one enclosing `<p>`/`</p>` pair.  The bold, italic and
link rewrites preserve newline characters, and concrete bold/italic/link
markup is rewritten to the corresponding HTML tags; however the combined
bold-italic pattern consumes the single whitespace character before its
closing `_**`, as the last conjunct shows on `"**_x _**"` (the space is
gone), so newlines are NOT always preserved (see the counterexample). -/
theorem c10_convert_markdown_to_html_behavior :
    (convert_markdown_to_html "" = "")
    ∧ (∀ s : String, s ≠ "" →
        convert_markdown_to_html s = "<p>" ++ String.mk (markdownPasses s.data) ++ "</p>")
    ∧ (∀ (fuel : Nat) (l : List Char), countNl (subBold fuel l) = countNl l)
    ∧ (∀ (fuel : Nat) (l : List Char), countNl (subItalic fuel l) = countNl l)
    ∧ (∀ (fuel : Nat) (l : List Char), countNl (subLink fuel l) = countNl l)
    ∧ convert_markdown_to_html "**bold** text" = "<p><strong>bold</strong> text</p>"
    ∧ convert_markdown_to_html "_it_" = "<p><i>it</i></p>"
    ∧ convert_markdown_to_html "[t](u)" = "<p><a href=\"u\">t</a></p>"
    ∧ convert_markdown_to_html "**_x _**" = "<p><strong><i>x</i></strong></p>" := by
  refine ⟨rfl, ?_, subBold_countNl, subItalic_countNl, subLink_countNl, ?_, ?_, ?_, ?_⟩
  · intro s hs
    simp [convert_markdown_to_html, hs]
  · rfl
  · rfl
  · rfl
  · rfl

/-- C10 witness: the non-empty branch of the theorem at `s = "x"`. -/
theorem c10_witness :
    convert_markdown_to_html "x" = "<p>" ++ String.mk (markdownPasses "x".data) ++ "</p>" :=
  c10_convert_markdown_to_html_behavior.2.1 "x" (by decide)

/-- C10 counterexample: on `"**_a\n_**"` the newline character is consumed
by the `\s` of the combined bold-italic pattern, so the output has no
newline while the input has one — refuting "newline characters preserved
unchanged". -/
theorem c10_counterexample :
    convert_markdown_to_html "**_a\n_**" = "<p><strong><i>a</i></strong></p>"
    ∧ countNl ("**_a\n_**".data) = 1
    ∧ countNl ((convert_markdown_to_html "**_a\n_**").data) = 0 :=
  ⟨rfl, rfl, rfl⟩

theorem alistLookup_append_right {κ α : Type} [DecidableEq κ] (a b : List (κ × α)) (k : κ)
    (h : alistLookup a k = none) : alistLookup (a ++ b) k = alistLookup b k := by
  induction a with
  | nil => simp
  | cons p rest ih =>
      obtain ⟨k1, v1⟩ := p
      simp only [alistLookup] at h ⊢
      by_cases hk : k1 = k
      · rw [if_pos hk] at h; simp at h
      · rw [if_neg hk] at h ⊢
        exact ih h

theorem alistLookup_filterMap_notMem {κ α : Type} [DecidableEq κ]
    (g : κ → Option (κ × α)) (hg : ∀ k p, g k = some p → p.1 = k) :
    ∀ (l : List κ) (k : κ), k ∉ l → alistLookup (l.filterMap g) k = none := by
  intro l
  induction l with
  | nil => intro k _; simp [alistLookup]
  | cons a rest ih =>
      intro k hk
      simp only [List.mem_cons, not_or] at hk
      cases hga : g a with
      | none => simp [List.filterMap_cons, hga, ih k hk.2]
      | some p =>
          have hp := hg a p hga
          have hne : p.1 ≠ k := by rw [hp]; exact fun h => hk.1 h.symm
          simp [List.filterMap_cons, hga, alistLookup, hne, ih k hk.2]

theorem alistLookup_filterMap {κ α : Type} [DecidableEq κ]
    (g : κ → Option (κ × α)) (hg : ∀ k p, g k = some p → p.1 = k) :
    ∀ (l : List κ), l.Nodup → ∀ k ∈ l,
      alistLookup (l.filterMap g) k = (g k).map Prod.snd := by
  intro l
  induction l with
  | nil => intro _ k hk; simp at hk
  | cons a rest ih =>
      intro hnd k hk
      obtain ⟨hna, hndr⟩ := List.nodup_cons.mp hnd
      rcases List.mem_cons.mp hk with rfl | hmem
      · cases hga : g k with
        | none => simp [List.filterMap_cons, hga, alistLookup_filterMap_notMem g hg rest k hna]
        | some p =>
            have hp := hg k p hga
            simp [List.filterMap_cons, hga, alistLookup, hp]
      · cases hga : g a with
        | none => simp [List.filterMap_cons, hga, ih hndr k hmem]
        | some p =>
            have hp := hg a p hga
            have hne : p.1 ≠ k := by rw [hp]; intro h; exact hna (h ▸ hmem)
            simp [List.filterMap_cons, hga, alistLookup, hne, ih hndr k hmem]

theorem mergeAdditionalField_key (sd ex : PyDict) (f : String) :
    ∀ p, mergeAdditionalField sd ex f = some p → p.1 = f := by
  intro p h
  simp only [mergeAdditionalField] at h
  split at h
  · exact absurd h (by simp)
  · simp only [Option.some.injEq] at h
    rw [← h]

theorem mergeAdditionalField_nil (ex : PyDict) (f : String) :
    (mergeAdditionalField [] ex f).map Prod.snd
      = if dget ex f = PyVal.vNone then none else some (dget ex f) := by
  have h0 : dget ([] : PyDict) f = PyVal.vNone := rfl
  simp only [mergeAdditionalField, h0]
  cases h : dget ex f <;> simp [h]

/-- The shape of any successfully built payload. -/
theorem update_cvent_session_payload_shape (eid : String) (locs : List (String × String))
    (sd ex : PyDict) (p : PyDict)
    (h : update_cvent_session_payload eid locs sd ex = some p) :
    ∃ dv lv tv, descriptionValue sd ex = some dv ∧ locationValue locs sd ex = some lv
      ∧ typeValue sd ex = some tv
      ∧ p = ("event", PyVal.vDict [("id", PyVal.vStr eid)])
          :: ("title", alistGetD sd "title" (dget ex "title"))
          :: ("description", dv)
          :: ("start", alistGetD sd "start_time" (dget ex "start"))
          :: ("end", alistGetD sd "end_time" (dget ex "end"))
          :: ("location", lv)
          :: ("type", tv)
          :: additional_fields.filterMap (mergeAdditionalField sd ex) := by
  unfold update_cvent_session_payload at h
  cases hD : descriptionValue sd ex with
  | none => rw [hD] at h; simp at h
  | some dv =>
    rw [hD] at h
    cases hL : locationValue locs sd ex with
    | none => rw [hL] at h; simp at h
    | some lv =>
      rw [hL] at h
      cases hT : typeValue sd ex with
      | none => rw [hT] at h; simp at h
      | some tv =>
        rw [hT] at h
        simp only [Option.some.injEq] at h
        exact ⟨dv, lv, tv, rfl, rfl, rfl, h.symm⟩

theorem payload_title_passthrough (eid : String) (locs : List (String × String))
    (sd ex : PyDict) (p : PyDict) (v : PyVal)
    (hT : alistLookup sd "title" = some v)
    (h : update_cvent_session_payload eid locs sd ex = some p) :
    alistLookup p "title" = some v := by
  obtain ⟨dv, lv, tv, _, _, _, rfl⟩ := update_cvent_session_payload_shape eid locs sd ex p h
  show some (alistGetD sd "title" (dget ex "title")) = some v
  simp [alistGetD, hT]

theorem payload_start_passthrough (eid : String) (locs : List (String × String))
    (sd ex : PyDict) (p : PyDict) (v : PyVal)
    (hT : alistLookup sd "start_time" = some v)
    (h : update_cvent_session_payload eid locs sd ex = some p) :
    alistLookup p "start" = some v := by
  obtain ⟨dv, lv, tv, _, _, _, rfl⟩ := update_cvent_session_payload_shape eid locs sd ex p h
  show some (alistGetD sd "start_time" (dget ex "start")) = some v
  simp [alistGetD, hT]

theorem payload_end_passthrough (eid : String) (locs : List (String × String))
    (sd ex : PyDict) (p : PyDict) (v : PyVal)
    (hT : alistLookup sd "end_time" = some v)
    (h : update_cvent_session_payload eid locs sd ex = some p) :
    alistLookup p "end" = some v := by
  obtain ⟨dv, lv, tv, _, _, _, rfl⟩ := update_cvent_session_payload_shape eid locs sd ex p h
  show some (alistGetD sd "end_time" (dget ex "end")) = some v
  simp [alistGetD, hT]

theorem payload_description_converted (eid : String) (locs : List (String × String))
    (sd ex : PyDict) (p : PyDict) (s : String)
    (hd : alistLookup sd "description" = some (PyVal.vStr s)) (hs : ¬ s.trim = "")
    (h : update_cvent_session_payload eid locs sd ex = some p) :
    alistLookup p "description" = some (PyVal.vStr (convert_markdown_to_html s)) := by
  obtain ⟨dv, lv, tv, hD, _, _, rfl⟩ := update_cvent_session_payload_shape eid locs sd ex p h
  unfold descriptionValue at hD
  rw [hd] at hD
  simp only [if_neg hs] at hD
  simp only [Option.some.injEq] at hD
  show some dv = some (PyVal.vStr (convert_markdown_to_html s))
  rw [← hD]

theorem payload_location_resolved (eid : String) (locs : List (String × String))
    (sd ex : PyDict) (p : PyDict) (s locId : String)
    (hd : alistLookup sd "location" = some (PyVal.vStr s)) (hs : ¬ s.trim = "")
    (hl : alistLookup locs s = some locId) (hid : ¬ locId = "")
    (h : update_cvent_session_payload eid locs sd ex = some p) :
    alistLookup p "location" = some (PyVal.vDict [("id", PyVal.vStr locId)]) := by
  obtain ⟨dv, lv, tv, _, hL, _, rfl⟩ := update_cvent_session_payload_shape eid locs sd ex p h
  unfold locationValue at hL
  rw [hd] at hL
  simp only [if_neg hs, hl, if_neg hid] at hL
  simp only [Option.some.injEq] at hL
  show some lv = _
  rw [← hL]

theorem payload_location_unresolved (eid : String) (locs : List (String × String))
    (sd ex : PyDict) (p : PyDict) (s : String)
    (hd : alistLookup sd "location" = some (PyVal.vStr s)) (hs : ¬ s.trim = "")
    (hl : alistLookup locs s = none)
    (h : update_cvent_session_payload eid locs sd ex = some p) :
    alistLookup p "location" = some (dget ex "location") := by
  obtain ⟨dv, lv, tv, _, hL, _, rfl⟩ := update_cvent_session_payload_shape eid locs sd ex p h
  unfold locationValue at hL
  rw [hd] at hL
  simp only [if_neg hs, hl] at hL
  simp only [Option.some.injEq] at hL
  show some lv = _
  rw [← hL]

/-- C1 (amended).  The merge rule of `update_cvent_session` holds as
specified for description (markdown-converted when non-blank, else the
remote value), location (name resolved to an id when non-blank, falling
back to the remote value when unresolvable) and every additional field
(supplied non-blank value, else the remote value, a field being omitted
only when both are `None`); and a change-set that does NOT contain the
title/start/end keys falls back to the remote values field-for-field.  But
for `title`, `start` and `end` the fallback happens ONLY on key absence: a
present key is copied into the payload verbatim, even when its value is
blank or `None` (see the counterexample). -/
theorem c1_update_cvent_session_field_merge :
    (∀ (eid : String) (locs : List (String × String)) (ex : PyDict),
      ∃ p, update_cvent_session_payload eid locs [] ex = some p
        ∧ alistLookup p "title" = some (dget ex "title")
        ∧ alistLookup p "description" = some (alistGetD ex "description" (PyVal.vStr ""))
        ∧ alistLookup p "start" = some (dget ex "start")
        ∧ alistLookup p "end" = some (dget ex "end")
        ∧ alistLookup p "location" = some (dget ex "location")
        ∧ alistLookup p "type" = some (dget ex "type")
        ∧ ∀ f ∈ additional_fields,
            alistLookup p f = if dget ex f = PyVal.vNone then none else some (dget ex f))
    ∧ (∀ (eid : String) (locs : List (String × String)) (sd ex p : PyDict) (v : PyVal),
        alistLookup sd "title" = some v →
        update_cvent_session_payload eid locs sd ex = some p →
        alistLookup p "title" = some v)
    ∧ (∀ (eid : String) (locs : List (String × String)) (sd ex p : PyDict) (v : PyVal),
        alistLookup sd "start_time" = some v →
        update_cvent_session_payload eid locs sd ex = some p →
        alistLookup p "start" = some v)
    ∧ (∀ (eid : String) (locs : List (String × String)) (sd ex p : PyDict) (v : PyVal),
        alistLookup sd "end_time" = some v →
        update_cvent_session_payload eid locs sd ex = some p →
        alistLookup p "end" = some v)
    ∧ (∀ (eid : String) (locs : List (String × String)) (sd ex p : PyDict) (s : String),
        alistLookup sd "description" = some (PyVal.vStr s) → ¬ s.trim = "" →
        update_cvent_session_payload eid locs sd ex = some p →
        alistLookup p "description" = some (PyVal.vStr (convert_markdown_to_html s)))
    ∧ (∀ (eid : String) (locs : List (String × String)) (sd ex p : PyDict) (s : String),
        alistLookup sd "location" = some (PyVal.vStr s) → ¬ s.trim = "" →
        alistLookup locs s = none →
        update_cvent_session_payload eid locs sd ex = some p →
        alistLookup p "location" = some (dget ex "location")) := by
  refine ⟨?_, payload_title_passthrough, payload_start_passthrough, payload_end_passthrough,
    payload_description_converted, payload_location_unresolved⟩
  intro eid locs ex
  refine ⟨_, rfl, rfl, rfl, rfl, rfl, rfl, rfl, ?_⟩
  intro f hf
  have hcore : alistLookup
      [("event", PyVal.vDict [("id", PyVal.vStr eid)]),
       ("title", alistGetD [] "title" (dget ex "title")),
       ("description", alistGetD ex "description" (PyVal.vStr "")),
       ("start", alistGetD [] "start_time" (dget ex "start")),
       ("end", alistGetD [] "end_time" (dget ex "end")),
       ("location", dget ex "location"),
       ("type", dget ex "type")] f = none := by
    simp only [additional_fields] at hf
    fin_cases hf <;> rfl
  rw [alistLookup_append_right _ _ _ hcore,
      alistLookup_filterMap (mergeAdditionalField [] ex) (mergeAdditionalField_key [] ex)
        additional_fields (by decide) f hf,
      mergeAdditionalField_nil]

def c1WitnessPayload : PyDict :=
  (update_cvent_session_payload "EV" [] [("title", PyVal.vStr "New")] []).getD []

/-- C1 witness: a supplied non-blank title reaches the payload. -/
theorem c1_witness : alistLookup c1WitnessPayload "title" = some (PyVal.vStr "New") :=
  c1_update_cvent_session_field_merge.2.1 "EV" [] [("title", PyVal.vStr "New")] []
    c1WitnessPayload (PyVal.vStr "New") rfl rfl

def c1SessionData : PyDict := [("title", PyVal.vStr "")]

def c1Existing : PyDict := [("title", PyVal.vStr "Old Title")]

def c1Payload : PyDict :=
  (update_cvent_session_payload "EV" [] c1SessionData c1Existing).getD []

/-- C1 counterexample: the change-set supplies a BLANK title, so by the
claim the payload title should fall back to the remote "Old Title"; the
code instead copies the blank into the payload. -/
theorem c1_counterexample :
    update_cvent_session_payload "EV" [] c1SessionData c1Existing = some c1Payload
    ∧ alistLookup c1SessionData "title" = some (PyVal.vStr "")
    ∧ dget c1Existing "title" = PyVal.vStr "Old Title"
    ∧ alistLookup c1Payload "title" = some (PyVal.vStr "")
    ∧ alistLookup c1Payload "title" ≠ some (dget c1Existing "title") := by
  refine ⟨rfl, rfl, rfl, rfl, ?_⟩
  rw [show alistLookup c1Payload "title" = some (PyVal.vStr "") from rfl,
      show dget c1Existing "title" = PyVal.vStr "Old Title" from rfl]
  simp

theorem natDigit_isDigit (k : Nat) : (natDigit k).isDigit = true := by
  have h : k % 10 < 10 := Nat.mod_lt _ (by norm_num)
  unfold natDigit
  set r := k % 10 with hr
  interval_cases r <;> decide

/-- The wire format `YYYY-MM-DDTHH:MM:00.000Z` (seconds are always 0 for
this tool's inputs). -/
def wireShape (s : String) : Bool :=
  match s.data with
  | [y1, y2, y3, y4, h1, a1, a2, h2, b1, b2, t, c1, c2, q1, d1, d2, q2,
     s1, s2, dot, z1, z2, z3, z] =>
      y1.isDigit && y2.isDigit && y3.isDigit && y4.isDigit && h1 = '-'
      && a1.isDigit && a2.isDigit && h2 = '-' && b1.isDigit && b2.isDigit
      && t = 'T' && c1.isDigit && c2.isDigit && q1 = ':' && d1.isDigit && d2.isDigit
      && q2 = ':' && s1 = '0' && s2 = '0' && dot = '.' && z1 = '0' && z2 = '0'
      && z3 = '0' && z = 'Z'
  | _ => false

theorem wireShape_fmtUTC (y mo d hh mi : Nat) : wireShape (fmtUTC y mo d hh mi) = true := by
  simp [wireShape, fmtUTC, pad4, pad2, natDigit_isDigit]

theorem convertCore_ok_shape (y mo d hh mi : Nat) (out : String)
    (h : convertCore y mo d hh mi = ConvResult.ok out) :
    ∃ y2 m2 d2 hh2 mi2, y2 ≤ 9999 ∧ hh2 < 24 ∧ mi2 < 60
      ∧ out = fmtUTC y2 m2 d2 hh2 mi2 ∧ out.length = 24 ∧ wireShape out = true := by
  unfold convertCore at h
  by_cases hy : (civilFromDays (utcMinutesOf y mo d hh mi / 1440)).1 > 9999
  · rw [if_pos hy] at h; simp at h
  · rw [if_neg hy] at h
    simp only [ConvResult.ok.injEq] at h
    refine ⟨(civilFromDays (utcMinutesOf y mo d hh mi / 1440)).1,
      (civilFromDays (utcMinutesOf y mo d hh mi / 1440)).2.1,
      (civilFromDays (utcMinutesOf y mo d hh mi / 1440)).2.2,
      utcMinutesOf y mo d hh mi % 1440 / 60, utcMinutesOf y mo d hh mi % 60,
      by omega, ?_, ?_, h.symm, ?_, ?_⟩
    · have : utcMinutesOf y mo d hh mi % 1440 < 1440 := Nat.mod_lt _ (by norm_num)
      omega
    · exact Nat.mod_lt _ (by norm_num)
    · rw [← h]; rfl
    · rw [← h]; exact wireShape_fmtUTC _ _ _ _ _

/-- C4 (amended).  The conversion returns either the UTC wire format or,
for unparseable input, the no-value `None` (an input whose UTC instant
would pass year 9999 instead raises `OverflowError`, uncaught); but when it
yields no value, `update_cvent_session` does NOT fall back to the remote
start/end — `session_data.get("start_time", ...)` sees the present key and
copies the `None` into the payload (the update still does not abort). -/
theorem c4_timestamp_conversion_behavior :
    (∀ (s out : String), convert_airtable_to_cvent_datetime s = ConvResult.ok out →
        ∃ y mo d hh mi, y ≤ 9999 ∧ hh < 24 ∧ mi < 60 ∧ out = fmtUTC y mo d hh mi
          ∧ out.length = 24 ∧ wireShape out = true)
    ∧ convert_airtable_to_cvent_datetime "04/08/2025 09:00 PM"
        = ConvResult.ok "2025-04-09T04:00:00.000Z"
    ∧ convert_airtable_to_cvent_datetime "not a date" = ConvResult.failed
    ∧ (∀ (eid : String) (locs : List (String × String)) (sd ex p : PyDict),
        alistLookup sd "start_time" = some PyVal.vNone →
        update_cvent_session_payload eid locs sd ex = some p →
        alistLookup p "start" = some PyVal.vNone)
    ∧ (∀ (eid : String) (locs : List (String × String)) (sd ex p : PyDict),
        alistLookup sd "end_time" = some PyVal.vNone →
        update_cvent_session_payload eid locs sd ex = some p →
        alistLookup p "end" = some PyVal.vNone) := by
  refine ⟨?_, rfl, rfl,
    fun eid locs sd ex p h1 h2 => payload_start_passthrough eid locs sd ex p PyVal.vNone h1 h2,
    fun eid locs sd ex p h1 h2 => payload_end_passthrough eid locs sd ex p PyVal.vNone h1 h2⟩
  intro s out h
  unfold convert_airtable_to_cvent_datetime at h
  cases hp : strptimeAirtable s with
  | none => rw [hp] at h; simp at h
  | some q =>
      obtain ⟨y, mo, d, hh, mi⟩ := q
      rw [hp] at h
      exact convertCore_ok_shape y mo d hh mi out h

/-- C4 witness: the wire shape of a concrete successful conversion,
extracted by applying the theorem at `"04/08/2025 09:00 PM"`. -/
theorem c4_witness : wireShape "2025-04-09T04:00:00.000Z" = true := by
  obtain ⟨y, mo, d, hh, mi, _, _, _, _, _, hws⟩ :=
    c4_timestamp_conversion_behavior.1 "04/08/2025 09:00 PM" "2025-04-09T04:00:00.000Z" (by rfl)
  exact hws

def c4SessionData : PyDict := [("start_time", PyVal.vNone)]

def c4Existing : PyDict := [("start", PyVal.vStr "2025-04-09T04:00:00.000Z")]

def c4Payload : PyDict :=
  (update_cvent_session_payload "EV" [] c4SessionData c4Existing).getD []

/-- C4 counterexample: an unparseable timestamp yields `None`, but the
payload's `start` is then `None` instead of the remote session's current
start value — the claimed fallback does not happen. -/
theorem c4_counterexample :
    convert_airtable_to_cvent_datetime "" = ConvResult.failed
    ∧ update_cvent_session_payload "EV" [] c4SessionData c4Existing = some c4Payload
    ∧ alistLookup c4Payload "start" = some PyVal.vNone
    ∧ dget c4Existing "start" = PyVal.vStr "2025-04-09T04:00:00.000Z"
    ∧ alistLookup c4Payload "start" ≠ some (dget c4Existing "start") := by
  refine ⟨rfl, rfl, rfl, rfl, ?_⟩
  rw [show alistLookup c4Payload "start" = some PyVal.vNone from rfl,
      show dget c4Existing "start" = PyVal.vStr "2025-04-09T04:00:00.000Z" from rfl]
  simp

theorem alistInsert_mem {κ α : Type} [DecidableEq κ] :
    ∀ (m : List (κ × α)) (k : κ) (v : α) (p : κ × α),
      p ∈ alistInsert m k v → p ∈ m ∨ p = (k, v) := by
  intro m k v
  induction m with
  | nil => intro p hp; simp [alistInsert] at hp; right; exact hp
  | cons q rest ih =>
      intro p hp
      obtain ⟨k1, w⟩ := q
      simp only [alistInsert] at hp
      by_cases hk : k1 = k
      · rw [if_pos hk] at hp
        rcases List.mem_cons.mp hp with rfl | hmem
        · right; rw [hk]
        · left; exact List.mem_cons_of_mem _ hmem
      · rw [if_neg hk] at hp
        rcases List.mem_cons.mp hp with rfl | hmem
        · left; exact List.mem_cons_self _ _
        · rcases ih p hmem with h | h
          · left; exact List.mem_cons_of_mem _ h
          · right; exact h

theorem mkSessionData_record_id (r : AirtableRecord) (sd : SessionData)
    (h : mkSessionData r = some sd) : sd.record_id = r.id := by
  unfold mkSessionData at h
  split at h
  · simp only [Option.some.injEq] at h
    rw [← h]
  · exact absurd h (by simp)

theorem get_modified_aux_provenance :
    ∀ (recs : List AirtableRecord) (acc out : List (PyVal × SessionData)),
      get_modified_aux acc recs = some out →
      ∀ p ∈ out, p ∈ acc
        ∨ ∃ r ∈ recs, (alistLookup r.fields "Cvent Session ID").isSome
            ∧ (p.2).record_id = r.id := by
  intro recs
  induction recs with
  | nil =>
      intro acc out h p hp
      simp only [get_modified_aux, Option.some.injEq] at h
      left; rw [← h] at hp; exact hp
  | cons r rest ih =>
      intro acc out h p hp
      simp only [get_modified_aux] at h
      cases hl : alistLookup r.fields "Cvent Session ID" with
      | none =>
          rw [hl] at h
          rcases ih acc out h p hp with hacc | ⟨r2, hr2, hs, hid⟩
          · left; exact hacc
          · right; exact ⟨r2, List.mem_cons_of_mem _ hr2, hs, hid⟩
      | some kv =>
          rw [hl] at h
          by_cases hh : pyHashable kv = true
          · simp only [if_pos hh] at h
            cases hm : mkSessionData r with
            | none => simp only [hm] at h; exact absurd h (by simp)
            | some sd =>
                simp only [hm] at h
                rcases ih _ out h p hp with hacc | ⟨r2, hr2, hs, hid⟩
                · rcases alistInsert_mem acc kv sd p hacc with hmem | rfl
                  · left; exact hmem
                  · right
                    exact ⟨r, List.mem_cons_self _ _, by rw [hl]; rfl,
                      mkSessionData_record_id r sd hm⟩
                · right; exact ⟨r2, List.mem_cons_of_mem _ hr2, hs, hid⟩
          · simp only [if_neg hh] at h; exact absurd h (by simp)

/-- C9.  A fetched record whose fields lack a `"Cvent Session ID"` entry is
silently skipped by `get_modified_airtable_sessions` (dropping it leaves
the result unchanged), every produced entry originates from a record that
HAS the field, and — when record ids are distinct, as Airtable guarantees —
no entry (hence no `update_cvent_session` call, since the main loop
iterates exactly these entries) carries the id of a record lacking the
field. -/
theorem c9_missing_cvent_id_excluded :
    (∀ (r : AirtableRecord) (rest : List AirtableRecord),
        alistLookup r.fields "Cvent Session ID" = none →
        get_modified_airtable_sessions (r :: rest) = get_modified_airtable_sessions rest)
    ∧ (∀ (recs : List AirtableRecord) (out : List (PyVal × SessionData)),
        get_modified_airtable_sessions recs = some out →
        ∀ p ∈ out, ∃ r ∈ recs, (alistLookup r.fields "Cvent Session ID").isSome
          ∧ (p.2).record_id = r.id)
    ∧ (∀ (recs : List AirtableRecord) (out : List (PyVal × SessionData)),
        (recs.map (fun r => r.id)).Nodup →
        get_modified_airtable_sessions recs = some out →
        ∀ r ∈ recs, alistLookup r.fields "Cvent Session ID" = none →
        ∀ p ∈ out, (p.2).record_id ≠ r.id) := by
  refine ⟨?_, ?_, ?_⟩
  · intro r rest h
    simp [get_modified_airtable_sessions, get_modified_aux, h]
  · intro recs out h p hp
    rcases get_modified_aux_provenance recs [] out h p hp with hacc | hr
    · simp at hacc
    · exact hr
  · intro recs out hnd h r hr hnone p hp hid
    rcases get_modified_aux_provenance recs [] out h p hp with hacc | ⟨r2, hr2, hs, hid2⟩
    · simp at hacc
    · have : r2 = r := List.inj_on_of_nodup_map hnd hr2 hr (by rw [hid2] at hid; exact hid)
      rw [this] at hs
      rw [hnone] at hs
      simp at hs

def c9WitnessRecord : AirtableRecord := ⟨"recNoCvent", [("Name", PyVal.vStr "x")]⟩

/-- C9 witness: dropping a concrete record without the field leaves the
result unchanged. -/
theorem c9_witness :
    get_modified_airtable_sessions [c9WitnessRecord] = get_modified_airtable_sessions [] :=
  c9_missing_cvent_id_excluded.1 c9WitnessRecord [] rfl

theorem alistLookup_mem {κ α : Type} [DecidableEq κ] :
    ∀ (m : List (κ × α)) (k : κ) (v : α), alistLookup m k = some v → (k, v) ∈ m := by
  intro m k v
  induction m with
  | nil => intro h; simp [alistLookup] at h
  | cons q rest ih =>
      intro h
      obtain ⟨k1, w⟩ := q
      simp only [alistLookup] at h
      by_cases hk : k1 = k
      · rw [if_pos hk] at h
        simp only [Option.some.injEq] at h
        subst hk; subst h
        exact List.mem_cons_self _ _
      · rw [if_neg hk] at h
        exact List.mem_cons_of_mem _ (ih h)

theorem alistLookup_of_mem_nodup {κ α : Type} [DecidableEq κ] :
    ∀ (m : List (κ × α)) (k : κ) (v : α),
      (m.map Prod.fst).Nodup → (k, v) ∈ m → alistLookup m k = some v := by
  intro m k v
  induction m with
  | nil => intro _ h; simp at h
  | cons q rest ih =>
      intro hnd hmem
      obtain ⟨k1, w⟩ := q
      simp only [List.map_cons, List.nodup_cons] at hnd
      rcases List.mem_cons.mp hmem with heq | hmem2
      · injection heq with h1 h2
        simp only [alistLookup]
        rw [if_pos h1.symm, h2]
      · have hk : k1 ≠ k := by
          intro hk
          exact hnd.1 (hk ▸ List.mem_map_of_mem Prod.fst hmem2)
        simp only [alistLookup]
        rw [if_neg hk]
        exact ih hnd.2 hmem2

theorem alistInsert_fst_nodup {κ α : Type} [DecidableEq κ] :
    ∀ (m : List (κ × α)) (k : κ) (v : α),
      (m.map Prod.fst).Nodup → ((alistInsert m k v).map Prod.fst).Nodup := by
  intro m k v
  induction m with
  | nil => intro _; simp [alistInsert]
  | cons q rest ih =>
      intro hnd
      obtain ⟨k1, w⟩ := q
      simp only [List.map_cons, List.nodup_cons] at hnd
      simp only [alistInsert]
      by_cases hk : k1 = k
      · rw [if_pos hk]
        simp only [List.map_cons, List.nodup_cons]
        exact hnd
      · rw [if_neg hk]
        simp only [List.map_cons, List.nodup_cons]
        constructor
        · intro hmem
          rcases List.mem_map.mp hmem with ⟨p, hp, hfst⟩
          rcases alistInsert_mem rest k v p hp with hpm | rfl
          · exact hnd.1 (hfst ▸ List.mem_map_of_mem Prod.fst hpm)
          · exact hk hfst.symm
        · exact ih hnd.2

theorem codesToIds_fst_nodup (available : List (String × String)) (cat : Option String) :
    ∀ (codes : List String) (acc : List (String × Option String)),
      (acc.map Prod.fst).Nodup → ((codesToIds available cat codes acc).map Prod.fst).Nodup := by
  intro codes
  induction codes with
  | nil => intro acc h; simpa [codesToIds] using h
  | cons c rest ih =>
      intro acc h
      simp only [codesToIds]
      cases hl : alistLookup available c with
      | none => exact ih acc h
      | some sid => exact ih _ (alistInsert_fst_nodup acc sid cat h)

theorem all_airtable_speakers_fst_nodup (available : List (String × String))
    (catS catM : Option String) (sc mc : List String) :
    ((all_airtable_speakers available catS catM sc mc).map Prod.fst).Nodup := by
  unfold all_airtable_speakers
  exact codesToIds_fst_nodup available catM mc _
    (codesToIds_fst_nodup available catS sc [] (by simp))

theorem removeCond_iff (allA : List (String × Option String)) (p : String × String) :
    removeCond allA p = true ↔ alistLookup allA p.1 ≠ some (some p.2) := by
  cases h : alistLookup allA p.1 <;> simp [removeCond, h]

theorem addCond_iff (current : List (String × String)) (p : String × Option String) :
    addCond current p = true ↔ ∀ c, alistLookup current p.1 = some c → p.2 ≠ some c := by
  cases h : alistLookup current p.1 <;> simp [addCond, h]

theorem remove_calls_before_add_calls (rs : List String) (as : List (String × Option String))
    (i j : Nat) (s1 s2 : String) (c2 : Option String)
    (hi : (rs.map SpkCall.remove ++ as.map (fun p => SpkCall.add p.1 p.2)).get? i
            = some (SpkCall.add s2 c2))
    (hj : (rs.map SpkCall.remove ++ as.map (fun p => SpkCall.add p.1 p.2)).get? j
            = some (SpkCall.remove s1)) : j < i := by
  have hjlt : j < (rs.map SpkCall.remove).length := by
    by_contra hge
    push_neg at hge
    rw [List.get?_append_right hge] at hj
    rcases List.mem_map.mp (List.get?_mem hj) with ⟨p, _, heq⟩
    exact absurd heq (by simp)
  have hige : (rs.map SpkCall.remove).length ≤ i := by
    by_contra hlt
    push_neg at hlt
    rw [List.get?_append hlt] at hi
    rcases List.mem_map.mp (List.get?_mem hi) with ⟨a, _, heq⟩
    exact absurd heq (by simp)
  omega

/-- C6.  `update_session_speakers` removes exactly the persons present
remotely but absent or differently categorized in the desired mapping,
adds-with-category exactly the persons desired but absent or differently
categorized remotely, issues every removal before every add, and issues no
call at all when the two mappings agree (remote-mapping keys are unique, as
a Python dict guarantees). -/
theorem c6_update_session_speakers_reconciliation
    (available : List (String × String)) (speaker_category_id moderator_category_id : Option String)
    (speakerCodes moderatorCodes : List String) (current_speakers : List (String × String))
    (hnd : (current_speakers.map Prod.fst).Nodup) :
    (∀ s, SpkCall.remove s ∈ update_session_speakers_calls available speaker_category_id
            moderator_category_id speakerCodes moderatorCodes current_speakers
        ↔ ∃ c, alistLookup current_speakers s = some c
            ∧ alistLookup (all_airtable_speakers available speaker_category_id
                moderator_category_id speakerCodes moderatorCodes) s ≠ some (some c))
    ∧ (∀ s cat, SpkCall.add s cat ∈ update_session_speakers_calls available speaker_category_id
            moderator_category_id speakerCodes moderatorCodes current_speakers
        ↔ alistLookup (all_airtable_speakers available speaker_category_id
              moderator_category_id speakerCodes moderatorCodes) s = some cat
          ∧ ∀ c, alistLookup current_speakers s = some c → cat ≠ some c)
    ∧ (∀ i j s1 s2 c2,
        (update_session_speakers_calls available speaker_category_id moderator_category_id
            speakerCodes moderatorCodes current_speakers).get? i = some (SpkCall.add s2 c2) →
        (update_session_speakers_calls available speaker_category_id moderator_category_id
            speakerCodes moderatorCodes current_speakers).get? j = some (SpkCall.remove s1) →
        j < i)
    ∧ ((∀ s, alistLookup (all_airtable_speakers available speaker_category_id
            moderator_category_id speakerCodes moderatorCodes) s
          = (alistLookup current_speakers s).map some) →
        update_session_speakers_calls available speaker_category_id moderator_category_id
          speakerCodes moderatorCodes current_speakers = []) := by
  refine ⟨?_, ?_, ?_, ?_⟩
  · intro s
    constructor
    · intro hmem
      simp only [update_session_speakers_calls, List.mem_append, List.mem_map] at hmem
      rcases hmem with ⟨a, ha, heq⟩ | ⟨p, hp, heq⟩
      · injection heq with ha2
        subst ha2
        rcases ha with ⟨p, hpfilter, hfst⟩
        rcases List.mem_filter.mp hpfilter with ⟨hpcur, hpcond⟩
        refine ⟨p.2, ?_, ?_⟩
        · rw [← hfst]
          exact alistLookup_of_mem_nodup current_speakers p.1 p.2 hnd hpcur
        · rw [← hfst]
          exact (removeCond_iff _ p).mp hpcond
      · exact absurd heq (by simp)
    · rintro ⟨c, hc, hne⟩
      simp only [update_session_speakers_calls, List.mem_append, List.mem_map]
      left
      exact ⟨s, ⟨(s, c), List.mem_filter.mpr
        ⟨alistLookup_mem current_speakers s c hc, (removeCond_iff _ (s, c)).mpr hne⟩, rfl⟩, rfl⟩
  · intro s cat
    constructor
    · intro hmem
      simp only [update_session_speakers_calls, List.mem_append, List.mem_map] at hmem
      rcases hmem with ⟨a, _, heq⟩ | ⟨p, hp, heq⟩
      · exact absurd heq (by simp)
      · injection heq with h1 h2
        subst h1; subst h2
        rcases List.mem_filter.mp hp with ⟨hpall, hpcond⟩
        exact ⟨alistLookup_of_mem_nodup _ p.1 p.2
            (all_airtable_speakers_fst_nodup available speaker_category_id
              moderator_category_id speakerCodes moderatorCodes) hpall,
          (addCond_iff _ p).mp hpcond⟩
    · rintro ⟨hdes, hcur⟩
      simp only [update_session_speakers_calls, List.mem_append, List.mem_map]
      right
      exact ⟨(s, cat), List.mem_filter.mpr
        ⟨alistLookup_mem _ s cat hdes, (addCond_iff _ (s, cat)).mpr hcur⟩, rfl⟩
  · intro i j s1 s2 c2 hi hj
    simp only [update_session_speakers_calls] at hi hj
    exact remove_calls_before_add_calls _ _ i j s1 s2 c2 hi hj
  · intro heq
    simp only [update_session_speakers_calls]
    have h1 : current_speakers.filter (removeCond (all_airtable_speakers available
        speaker_category_id moderator_category_id speakerCodes moderatorCodes)) = [] := by
      rw [List.filter_eq_nil_iff]
      intro p hp
      rw [removeCond_iff, ne_eq, not_not]
      rw [heq p.1, alistLookup_of_mem_nodup current_speakers p.1 p.2 hnd hp]
      rfl
    have h2 : (all_airtable_speakers available speaker_category_id moderator_category_id
        speakerCodes moderatorCodes).filter (addCond current_speakers) = [] := by
      rw [List.filter_eq_nil_iff]
      intro p hp
      have hlk : alistLookup (all_airtable_speakers available speaker_category_id
          moderator_category_id speakerCodes moderatorCodes) p.1 = some p.2 :=
        alistLookup_of_mem_nodup _ p.1 p.2
          (all_airtable_speakers_fst_nodup available speaker_category_id
            moderator_category_id speakerCodes moderatorCodes) hp
      rw [heq p.1] at hlk
      rw [addCond_iff, not_forall]
      cases hc : alistLookup current_speakers p.1 with
      | none => rw [hc] at hlk; simp at hlk
      | some c =>
          rw [hc] at hlk
          refine ⟨c, ?_⟩
          rw [Classical.not_imp]
          refine ⟨rfl, ?_⟩
          rw [ne_eq, not_not]
          simpa using hlk.symm
    rw [h1, h2]
    rfl

/-- C6 witness: with a desired mapping exactly equal to the remote one, no
call is issued. -/
theorem c6_witness :
    update_session_speakers_calls [("code1", "sp1")] (some "catS") (some "catM")
      ["code1"] [] [("sp1", "catS")] = [] := by
  apply (c6_update_session_speakers_reconciliation [("code1", "sp1")] (some "catS")
    (some "catM") ["code1"] [] [("sp1", "catS")] (by decide)).2.2.2
  intro s
  by_cases hs : ("sp1" : String) = s
  · subst hs
    rfl
  · show alistLookup [("sp1", some "catS")] s = (alistLookup [("sp1", "catS")] s).map some
    simp [alistLookup, hs]

theorem alistLookup_insert {κ α : Type} [DecidableEq κ] :
    ∀ (m : List (κ × α)) (k : κ) (v : α) (key : κ),
      alistLookup (alistInsert m k v) key
        = if k = key then some v else alistLookup m key := by
  intro m k v
  induction m with
  | nil => intro key; simp [alistInsert, alistLookup]
  | cons q rest ih =>
      intro key
      obtain ⟨k1, w⟩ := q
      simp only [alistInsert]
      by_cases h1 : k1 = k
      · subst h1
        rw [if_pos rfl]
        by_cases h2 : k1 = key <;> simp [alistLookup, h2]
      · rw [if_neg h1]
        by_cases h2 : k1 = key
        · subst h2
          have h3 : ¬ k = k1 := fun h => h1 h.symm
          simp [alistLookup, h3]
        · simp [alistLookup, h2, ih]

/-- Where a map binding can come from: a complete row of the scanned list,
or the starting accumulator. -/
theorem existing_record_map_lookup_src :
    ∀ (rows : List MirrorRecord) (acc : List (String × String)) (k rid : String),
      alistLookup (existing_record_map rows acc) k = some rid →
      (∃ r ∈ rows, completeRow r ∧ rowKey r = k ∧ r.id = rid)
        ∨ alistLookup acc k = some rid := by
  intro rows
  induction rows with
  | nil => intro acc k rid h; right; exact h
  | cons er rest ih =>
      intro acc k rid h
      simp only [existing_record_map] at h
      by_cases hc : completeRow er = true
      · rw [if_pos hc] at h
        rcases ih _ k rid h with ⟨r, hr, hrc, hrk, hrid⟩ | hacc
        · exact Or.inl ⟨r, List.mem_cons_of_mem _ hr, hrc, hrk, hrid⟩
        · rw [alistLookup_insert] at hacc
          by_cases hk : rowKey er = k
          · rw [if_pos hk] at hacc
            simp only [Option.some.injEq] at hacc
            exact Or.inl ⟨er, List.mem_cons_self _ _, hc, hk, hacc⟩
          · rw [if_neg hk] at hacc
            right; exact hacc
      · rw [if_neg hc] at h
        rcases ih _ k rid h with ⟨r, hr, hrc, hrk, hrid⟩ | hacc
        · exact Or.inl ⟨r, List.mem_cons_of_mem _ hr, hrc, hrk, hrid⟩
        · right; exact hacc

/-- Map bindings persist through further scanning. -/
theorem existing_record_map_persist :
    ∀ (rows : List MirrorRecord) (acc : List (String × String)) (k : String),
      (alistLookup acc k).isSome →
      (alistLookup (existing_record_map rows acc) k).isSome := by
  intro rows
  induction rows with
  | nil => intro acc k h; exact h
  | cons er rest ih =>
      intro acc k h
      simp only [existing_record_map]
      by_cases hc : completeRow er = true
      · rw [if_pos hc]
        apply ih
        rw [alistLookup_insert]
        by_cases hk : rowKey er = k
        · rw [if_pos hk]; rfl
        · rw [if_neg hk]; exact h
      · rw [if_neg hc]; exact ih acc k h

/-- Every complete row's key ends up bound in the map. -/
theorem existing_record_map_isSome :
    ∀ (rows : List MirrorRecord) (acc : List (String × String)) (r : MirrorRecord),
      r ∈ rows → completeRow r →
      (alistLookup (existing_record_map rows acc) (rowKey r)).isSome := by
  intro rows
  induction rows with
  | nil => intro acc r h; simp at h
  | cons er rest ih =>
      intro acc r hr hc
      simp only [existing_record_map]
      rcases List.mem_cons.mp hr with rfl | hmem
      · rw [if_pos hc]
        apply existing_record_map_persist
        rw [alistLookup_insert, if_pos rfl]
        rfl
      · by_cases hec : completeRow er = true
        · rw [if_pos hec]; exact ih _ r hmem hc
        · rw [if_neg hec]; exact ih _ r hmem hc

/-- The map's keys are unique (insertion overwrites in place). -/
theorem existing_record_map_fst_nodup :
    ∀ (rows : List MirrorRecord) (acc : List (String × String)),
      (acc.map Prod.fst).Nodup →
      ((existing_record_map rows acc).map Prod.fst).Nodup := by
  intro rows
  induction rows with
  | nil => intro acc h; exact h
  | cons er rest ih =>
      intro acc h
      simp only [existing_record_map]
      by_cases hc : completeRow er = true
      · rw [if_pos hc]; exact ih _ (alistInsert_fst_nodup _ _ _ h)
      · rw [if_neg hc]; exact ih _ h

/-- With pairwise-distinct row ids, two keys bound to the same row id
coincide. -/
theorem existing_record_map_value_inj (existing : List MirrorRecord)
    (h1 : (existing.map (fun r => r.id)).Nodup) (k1 k2 rid : String)
    (ha : alistLookup (existing_record_map existing []) k1 = some rid)
    (hb : alistLookup (existing_record_map existing []) k2 = some rid) : k1 = k2 := by
  rcases existing_record_map_lookup_src existing [] k1 rid ha with ⟨r1, hr1, _, hk1, hid1⟩ | hacc
  · rcases existing_record_map_lookup_src existing [] k2 rid hb with ⟨r2, hr2, _, hk2, hid2⟩ | hacc2
    · have : r1 = r2 := List.inj_on_of_nodup_map h1 hr1 hr2 (by rw [hid1, hid2])
      rw [← hk1, ← hk2, this]
    · simp [alistLookup] at hacc2
  · simp [alistLookup] at hacc

/-- With unique complete keys, the map binds a complete row's key to that
row's id. -/
theorem existing_record_map_lookup_eq (existing : List MirrorRecord)
    (h2 : ((existing.filter completeRow).map rowKey).Nodup)
    (r : MirrorRecord) (hr : r ∈ existing) (hc : completeRow r) :
    alistLookup (existing_record_map existing []) (rowKey r) = some r.id := by
  have hs := existing_record_map_isSome existing [] r hr hc
  cases hlk : alistLookup (existing_record_map existing []) (rowKey r) with
  | none => rw [hlk] at hs; simp at hs
  | some rid =>
      rcases existing_record_map_lookup_src existing [] (rowKey r) rid hlk
        with ⟨w, hw, hwc, hwk, hwid⟩ | hacc
      · have hrf : r ∈ existing.filter completeRow := List.mem_filter.mpr ⟨hr, hc⟩
        have hwf : w ∈ existing.filter completeRow := List.mem_filter.mpr ⟨hw, hwc⟩
        have : w = r := List.inj_on_of_nodup_map h2 hwf hrf hwk
        rw [← hwid, this]
      · simp [alistLookup] at hacc

/-- `records_to_create` is exactly the synthesized records whose key is not
in the map, in order. -/
theorem classifyCombos_fst (emap : List (String × String)) :
    ∀ (combos : List Combo),
      (classifyCombos emap combos).1
        = (combos.filter (fun c => (alistLookup emap (comboKey c)).isNone)).map comboFields := by
  intro combos
  induction combos with
  | nil => rfl
  | cons c cs ih =>
      simp only [classifyCombos]
      cases hl : alistLookup emap (comboKey c) with
      | some rid => simp [hl, ih, List.filter_cons]
      | none => simp [hl, ih, List.filter_cons]

/-- Every queued update overwrites its map-designated row with the fields
of a synthesized record bearing the looked-up key. -/
theorem classifyCombos_snd_mem (emap : List (String × String)) :
    ∀ (combos : List Combo) (u : String × MirrorFields),
      u ∈ (classifyCombos emap combos).2 →
      ∃ c ∈ combos, u.2 = comboFields c ∧ alistLookup emap (comboKey c) = some u.1 := by
  intro combos
  induction combos with
  | nil => intro u h; simp [classifyCombos] at h
  | cons c cs ih =>
      intro u h
      simp only [classifyCombos] at h
      cases hl : alistLookup emap (comboKey c) with
      | some rid =>
          rw [hl] at h
          rcases List.mem_cons.mp h with rfl | hmem
          · exact ⟨c, List.mem_cons_self _ _, rfl, hl⟩
          · rcases ih u hmem with ⟨c2, hc2, hu, hlk⟩
            exact ⟨c2, List.mem_cons_of_mem _ hc2, hu, hlk⟩
      | none =>
          rw [hl] at h
          rcases ih u h with ⟨c2, hc2, hu, hlk⟩
          exact ⟨c2, List.mem_cons_of_mem _ hc2, hu, hlk⟩

/-- One update per synthesized record whose key is in the map. -/
theorem classifyCombos_snd_length (emap : List (String × String)) :
    ∀ (combos : List Combo),
      (classifyCombos emap combos).2.length
        = (combos.filter (fun c => (alistLookup emap (comboKey c)).isSome)).length := by
  intro combos
  induction combos with
  | nil => rfl
  | cons c cs ih =>
      simp only [classifyCombos]
      cases hl : alistLookup emap (comboKey c) with
      | some rid => simp [hl, List.filter_cons, ih]
      | none => simp [hl, List.filter_cons, ih]

theorem deleteIdsFull_mem (emap : List (String × String)) (valid : List String) :
    ∀ rid, rid ∈ deleteIdsFull emap valid ↔ ∃ k, (k, rid) ∈ emap ∧ k ∉ valid := by
  induction emap with
  | nil => intro rid; simp [deleteIdsFull]
  | cons p rest ih =>
      intro rid
      obtain ⟨k1, r1⟩ := p
      simp only [deleteIdsFull, List.foldr_cons]
      by_cases hk : k1 ∈ valid
      · rw [if_pos hk]
        constructor
        · intro h
          rcases (ih rid).mp h with ⟨k, hmem, hnv⟩
          exact ⟨k, List.mem_cons_of_mem _ hmem, hnv⟩
        · rintro ⟨k, hmem, hnv⟩
          rcases List.mem_cons.mp hmem with heq | hmem2
          · injection heq with e1 e2
            exact absurd (e1 ▸ hk) hnv
          · exact (ih rid).mpr ⟨k, hmem2, hnv⟩
      · rw [if_neg hk]
        constructor
        · intro h
          rcases List.mem_cons.mp h with rfl | hmem
          · exact ⟨k1, List.mem_cons_self _ _, hk⟩
          · rcases (ih rid).mp hmem with ⟨k, hm2, hnv⟩
            exact ⟨k, List.mem_cons_of_mem _ hm2, hnv⟩
        · rintro ⟨k, hmem, hnv⟩
          rcases List.mem_cons.mp hmem with heq | hmem2
          · injection heq with e1 e2
            rw [e2]
            exact List.mem_cons_self _ _
          · exact List.mem_cons_of_mem _ ((ih rid).mpr ⟨k, hmem2, hnv⟩)

theorem deleteIdsFull_eq_nil (emap : List (String × String)) (valid : List String)
    (h : ∀ p ∈ emap, p.1 ∈ valid) : deleteIdsFull emap valid = [] := by
  induction emap with
  | nil => rfl
  | cons p rest ih =>
      simp only [deleteIdsFull, List.foldr_cons]
      rw [if_pos (h p (List.mem_cons_self _ _))]
      exact ih (fun q hq => h q (List.mem_cons_of_mem _ hq))

theorem deleteIdsIncr_mem (existing : List MirrorRecord) (processed valid : List String) :
    ∀ rid, rid ∈ deleteIdsIncr existing processed valid
      ↔ ∃ er ∈ existing, er.id = rid ∧ speakerRef er ∈ processed ∧ rowKey er ∉ valid := by
  induction existing with
  | nil => intro rid; simp [deleteIdsIncr]
  | cons er rest ih =>
      intro rid
      simp only [deleteIdsIncr, List.foldr_cons]
      by_cases hc : speakerRef er ∈ processed ∧ rowKey er ∉ valid
      · rw [if_pos hc]
        constructor
        · intro h
          rcases List.mem_cons.mp h with rfl | hmem
          · exact ⟨er, List.mem_cons_self _ _, rfl, hc⟩
          · rcases (ih rid).mp hmem with ⟨e2, he2, hid, hcond⟩
            exact ⟨e2, List.mem_cons_of_mem _ he2, hid, hcond⟩
        · rintro ⟨e2, he2, hid, hcond⟩
          rcases List.mem_cons.mp he2 with rfl | hmem2
          · rw [← hid]; exact List.mem_cons_self _ _
          · exact List.mem_cons_of_mem _ ((ih rid).mpr ⟨e2, hmem2, hid, hcond⟩)
      · rw [if_neg hc]
        constructor
        · intro h
          rcases (ih rid).mp h with ⟨e2, he2, hid, hcond⟩
          exact ⟨e2, List.mem_cons_of_mem _ he2, hid, hcond⟩
        · rintro ⟨e2, he2, hid, hcond⟩
          rcases List.mem_cons.mp he2 with rfl | hmem2
          · exact absurd hcond hc
          · exact (ih rid).mpr ⟨e2, hmem2, hid, hcond⟩

theorem plan_creates (records : List SpeakerRecord) (existing : List MirrorRecord) (fc : Bool) :
    (process_airtable_data_plan records existing fc).recordsToCreate
      = (classifyCombos (existing_record_map existing []) (synthCombos records)).1 := by
  cases h : classifyCombos (existing_record_map existing []) (synthCombos records)
  simp [process_airtable_data_plan, h]

theorem plan_updates (records : List SpeakerRecord) (existing : List MirrorRecord) (fc : Bool) :
    (process_airtable_data_plan records existing fc).recordsToUpdate
      = (classifyCombos (existing_record_map existing []) (synthCombos records)).2 := by
  cases h : classifyCombos (existing_record_map existing []) (synthCombos records)
  simp [process_airtable_data_plan, h]

theorem plan_deletes (records : List SpeakerRecord) (existing : List MirrorRecord) (fc : Bool) :
    (process_airtable_data_plan records existing fc).recordsToDelete
      = (if fc then deleteIdsFull (existing_record_map existing []) (validCombinations records)
         else deleteIdsIncr existing (records.map (fun r => r.id)) (validCombinations records)) := by
  cases h : classifyCombos (existing_record_map existing []) (synthCombos records)
  simp [process_airtable_data_plan, h, validCombinations]

/-- Every queued update targets the id of a complete existing row whose key
the overwriting fields reproduce. -/
theorem plan_update_src (records : List SpeakerRecord) (existing : List MirrorRecord) (fc : Bool) :
    ∀ u ∈ (process_airtable_data_plan records existing fc).recordsToUpdate,
      ∃ r ∈ existing, completeRow r ∧ u.1 = r.id ∧
        ∃ c ∈ synthCombos records, u.2 = comboFields c ∧ comboKey c = rowKey r := by
  intro u hu
  rw [plan_updates] at hu
  rcases classifyCombos_snd_mem _ _ u hu with ⟨c, hc, hu2, hlk⟩
  rcases existing_record_map_lookup_src existing [] (comboKey c) u.1 hlk
    with ⟨r, hr, hrc, hrk, hrid⟩ | hacc
  · exact ⟨r, hr, hrc, hrid.symm, c, hc, hu2, hrk.symm⟩
  · simp [alistLookup] at hacc

theorem applyUpdatesTo_eq_of_ne :
    ∀ (ups : List (String × MirrorFields)) (r : MirrorRecord),
      (∀ u ∈ ups, u.1 ≠ r.id) → applyUpdatesTo ups r = r := by
  intro ups
  induction ups with
  | nil => intro r _; rfl
  | cons u us ih =>
      intro r h
      simp only [applyUpdatesTo, List.foldl_cons]
      have hne : ¬ r.id = u.1 := fun e => h u (List.mem_cons_self _ _) e.symm
      rw [show applyOneUpdate r u = r from if_neg hne]
      exact ih r (fun v hv => h v (List.mem_cons_of_mem _ hv))

/-- If every update aimed at a row's id preserves its key, the folded
updates preserve its id and key. -/
theorem applyUpdatesTo_key :
    ∀ (ups : List (String × MirrorFields)) (r : MirrorRecord),
      (∀ u ∈ ups, u.1 = r.id → rowKey (MirrorRecord.mk r.id u.2) = rowKey r) →
      (applyUpdatesTo ups r).id = r.id ∧ rowKey (applyUpdatesTo ups r) = rowKey r := by
  intro ups
  induction ups with
  | nil => intro r _; exact ⟨rfl, rfl⟩
  | cons u us ih =>
      intro r h
      simp only [applyUpdatesTo, List.foldl_cons]
      by_cases he : r.id = u.1
      · rw [show applyOneUpdate r u = MirrorRecord.mk r.id u.2 from if_pos he]
        have hk : rowKey (MirrorRecord.mk r.id u.2) = rowKey r :=
          h u (List.mem_cons_self _ _) he.symm
        have := ih (MirrorRecord.mk r.id u.2)
          (fun v hv hid => by
            rw [hk]
            exact h v (List.mem_cons_of_mem _ hv) hid)
        exact ⟨this.1, this.2.trans hk⟩
      · rw [show applyOneUpdate r u = r from if_neg he]
        exact ih r (fun v hv => h v (List.mem_cons_of_mem _ hv))

/-- The folded updates leave a row unchanged or overwrite its fields with
those of some queued update aimed at its id. -/
theorem applyUpdatesTo_cases :
    ∀ (ups : List (String × MirrorFields)) (r : MirrorRecord),
      applyUpdatesTo ups r = r ∨
        ∃ u ∈ ups, u.1 = r.id ∧ applyUpdatesTo ups r = MirrorRecord.mk r.id u.2 := by
  intro ups
  induction ups with
  | nil => intro r; exact Or.inl rfl
  | cons u us ih =>
      intro r
      simp only [applyUpdatesTo, List.foldl_cons]
      by_cases he : r.id = u.1
      · rw [show applyOneUpdate r u = MirrorRecord.mk r.id u.2 from if_pos he]
        rcases ih (MirrorRecord.mk r.id u.2) with heq | ⟨v, hv, hvid, heq⟩
        · exact Or.inr ⟨u, List.mem_cons_self _ _, he.symm, heq⟩
        · exact Or.inr ⟨v, List.mem_cons_of_mem _ hv, hvid, heq⟩
      · rw [show applyOneUpdate r u = r from if_neg he]
        rcases ih r with heq | ⟨v, hv, hvid, heq⟩
        · exact Or.inl heq
        · exact Or.inr ⟨v, List.mem_cons_of_mem _ hv, hvid, heq⟩

theorem synthCombos_mem (records : List SpeakerRecord) :
    ∀ c ∈ synthCombos records, ∃ r ∈ records, c ∈ recordCombos r := by
  induction records with
  | nil => intro c h; simp [synthCombos] at h
  | cons r rest ih =>
      intro c h
      simp only [synthCombos, List.foldr_cons] at h
      rcases List.mem_append.mp h with h1 | h2
      · exact ⟨r, List.mem_cons_self _ _, h1⟩
      · rcases ih c h2 with ⟨r2, hr2, hc2⟩
        exact ⟨r2, List.mem_cons_of_mem _ hr2, hc2⟩

theorem synthCombos_role (records : List SpeakerRecord) :
    ∀ c ∈ synthCombos records, c.role = "Speaking" ∨ c.role = "Moderating" := by
  intro c h
  rcases synthCombos_mem records c h with ⟨r, _, hc⟩
  simp only [recordCombos] at hc
  rcases List.mem_append.mp hc with h1 | h2
  · rcases List.mem_map.mp h1 with ⟨s, _, heq⟩
    left; rw [← heq]
  · rcases List.mem_map.mp h2 with ⟨s, _, heq⟩
    right; rw [← heq]

theorem comboFields_rowKey (x : String) (c : Combo) :
    rowKey (MirrorRecord.mk x (comboFields c)) = comboKey c := rfl

theorem comboFields_complete (x : String) (c : Combo) (h1 : c.recordId ≠ "")
    (h2 : c.sessionId ≠ "") (h3 : c.role ≠ "") :
    completeRow (MirrorRecord.mk x (comboFields c)) = true := by
  simp [completeRow, speakerRef, sessionRef, comboFields, h1, h2, h3]

theorem freshRows_map_rowKey :
    ∀ (i : Nat) (l : List MirrorFields),
      (freshRows i l).map rowKey
        = l.map (fun f => mkKey (f.speaker.headD "") (f.session.headD "") f.role) := by
  intro i l
  induction l generalizing i with
  | nil => rfl
  | cons f rest ih => simp [freshRows, ih, rowKey, speakerRef, sessionRef, mkKey]

theorem freshRows_flds_mem :
    ∀ (i : Nat) (l : List MirrorFields) (r : MirrorRecord), r ∈ freshRows i l → r.flds ∈ l := by
  intro i l
  induction l generalizing i with
  | nil => intro r h; simp [freshRows] at h
  | cons f rest ih =>
      intro r h
      simp only [freshRows] at h
      rcases List.mem_cons.mp h with rfl | hmem
      · exact List.mem_cons_self _ _
      · exact List.mem_cons_of_mem _ (ih (i + 1) r hmem)

theorem freshRows_of_mem :
    ∀ (i : Nat) (l : List MirrorFields) (f : MirrorFields),
      f ∈ l → ∃ r ∈ freshRows i l, r.flds = f := by
  intro i l
  induction l generalizing i with
  | nil => intro f h; simp at h
  | cons g rest ih =>
      intro f h
      rcases List.mem_cons.mp h with rfl | hmem
      · exact ⟨MirrorRecord.mk ("fresh" ++ Nat.repr i) f, List.mem_cons_self _ _, rfl⟩
      · rcases ih (i + 1) f hmem with ⟨r, hr, hf⟩
        exact ⟨r, List.mem_cons_of_mem _ hr, hf⟩

/-- With pairwise-distinct existing row ids, the run's updates preserve every
existing row's id and key, and leave incomplete rows altogether unchanged. -/
theorem applyUpdates_pointwise (records : List SpeakerRecord) (existing : List MirrorRecord)
    (fc : Bool) (H1 : (existing.map (fun r => r.id)).Nodup) :
    ∀ r ∈ existing,
      (applyUpdatesTo (process_airtable_data_plan records existing fc).recordsToUpdate r).id = r.id
      ∧ rowKey (applyUpdatesTo (process_airtable_data_plan records existing fc).recordsToUpdate r)
          = rowKey r
      ∧ (completeRow r = false →
          applyUpdatesTo (process_airtable_data_plan records existing fc).recordsToUpdate r = r) := by
  intro r hr
  have hkey : ∀ u ∈ (process_airtable_data_plan records existing fc).recordsToUpdate,
      u.1 = r.id → completeRow r = true ∧ rowKey (MirrorRecord.mk r.id u.2) = rowKey r := by
    intro u hu hid
    rcases plan_update_src records existing fc u hu with ⟨r2, hr2, hr2c, hu1, c, hc, hu2, hck⟩
    have : r2 = r := List.inj_on_of_nodup_map H1 hr2 hr (by rw [← hu1, hid])
    subst this
    constructor
    · exact hr2c
    · rw [hu2, comboFields_rowKey, hck]
  have hmain := applyUpdatesTo_key _ r (fun u hu hid => (hkey u hu hid).2)
  refine ⟨hmain.1, hmain.2, ?_⟩
  intro hinc
  apply applyUpdatesTo_eq_of_ne
  intro u hu hid
  have := (hkey u hu hid).1
  rw [hinc] at this
  exact Bool.false_ne_true this

/-- The surviving (non-deleted) updated rows that are complete carry the
keys of a sublist of the complete existing rows. -/
theorem dedup_survivor_keys (records : List SpeakerRecord) (existing : List MirrorRecord)
    (fc : Bool) (H1 : (existing.map (fun r => r.id)).Nodup) :
    ∃ l, List.Sublist l (existing.filter completeRow) ∧
      (((existing.map
            (applyUpdatesTo (process_airtable_data_plan records existing fc).recordsToUpdate)).filter
          (fun r => r.id ∉ (process_airtable_data_plan records existing fc).recordsToDelete)).filter
        completeRow).map rowKey = l.map rowKey := by
  have hpw := applyUpdates_pointwise records existing fc H1
  rw [List.filter_filter, List.map_filter, List.map_map]
  have heq : existing.filter
        ((fun a => completeRow a && decide (a.id ∉ (process_airtable_data_plan records existing fc).recordsToDelete)) ∘
          applyUpdatesTo (process_airtable_data_plan records existing fc).recordsToUpdate)
      = (existing.filter completeRow).filter
        ((fun a => completeRow a && decide (a.id ∉ (process_airtable_data_plan records existing fc).recordsToDelete)) ∘
          applyUpdatesTo (process_airtable_data_plan records existing fc).recordsToUpdate) := by
    rw [List.filter_filter]
    apply List.filter_congr
    intro r hr
    cases hcr : completeRow r
    · have hfix := (hpw r hr).2.2 hcr
      simp [Function.comp, hfix, hcr]
    · simp [hcr]
  refine ⟨(existing.filter completeRow).filter
      ((fun a => completeRow a && decide (a.id ∉ (process_airtable_data_plan records existing fc).recordsToDelete)) ∘
        applyUpdatesTo (process_airtable_data_plan records existing fc).recordsToUpdate),
    List.filter_sublist _, ?_⟩
  rw [heq]
  apply List.map_congr_left
  intro r hr
  have hrE : r ∈ existing :=
    (List.mem_filter.mp (List.mem_filter.mp hr).1).1
  exact (hpw r hrE).2.1

/-- Pushing the completeness filter through freshly created rows. -/
theorem freshRows_filter_map_key :
    ∀ (i : Nat) (X : List Combo),
      ((freshRows i (X.map comboFields)).filter completeRow).map rowKey
        = (X.filter (fun c => completeRow (MirrorRecord.mk "" (comboFields c)))).map comboKey := by
  intro i X
  induction X generalizing i with
  | nil => rfl
  | cons c X ih =>
      simp only [List.map_cons, freshRows, List.filter_cons]
      cases hc : completeRow (MirrorRecord.mk "" (comboFields c))
      · have : completeRow (MirrorRecord.mk ("fresh" ++ Nat.repr i) (comboFields c)) = false := hc
        simp [this, hc, ih (i + 1)]
      · have : completeRow (MirrorRecord.mk ("fresh" ++ Nat.repr i) (comboFields c)) = true := hc
        simp [this, hc, ih (i + 1), comboFields_rowKey]

/-- The complete created rows carry the keys of the synthesized records
whose key was unmatched. -/
theorem dedup_fresh_keys (records : List SpeakerRecord) (existing : List MirrorRecord) (fc : Bool) :
    ((freshRows 0 (process_airtable_data_plan records existing fc).recordsToCreate).filter
        completeRow).map rowKey
      = ((((synthCombos records).filter
            (fun c => (alistLookup (existing_record_map existing []) (comboKey c)).isNone)).filter
          (fun c => completeRow (MirrorRecord.mk "" (comboFields c)))).map comboKey) := by
  rw [plan_creates, classifyCombos_fst]
  exact freshRows_filter_map_key 0 _

/-- Under unique existing ids, unique complete existing keys and unique
synthesized keys, the post-run complete rows have pairwise-distinct keys. -/
theorem dedup_post_keys_nodup (records : List SpeakerRecord) (existing : List MirrorRecord)
    (fc : Bool) (H1 : (existing.map (fun r => r.id)).Nodup)
    (H2 : ((existing.filter completeRow).map rowKey).Nodup)
    (H3 : ((synthCombos records).map comboKey).Nodup) :
    (((applyDedupPlan existing (process_airtable_data_plan records existing fc)).filter
        completeRow).map rowKey).Nodup := by
  obtain ⟨l, hl, heqA⟩ := dedup_survivor_keys records existing fc H1
  have heqB := dedup_fresh_keys records existing fc
  simp only [applyDedupPlan, List.filter_append, List.map_append]
  rw [heqA, heqB]
  apply List.Nodup.append
  · exact H2.sublist (hl.map rowKey)
  · exact H3.sublist (((List.filter_sublist _).trans (List.filter_sublist _)).map comboKey)
  · intro k hkA hkB
    rcases List.mem_map.mp hkA with ⟨r, hrl, hrk⟩
    have hrF : r ∈ existing.filter completeRow := hl.subset hrl
    have hrE : r ∈ existing := (List.mem_filter.mp hrF).1
    have hrc : completeRow r := (List.mem_filter.mp hrF).2
    have hsome := existing_record_map_isSome existing [] r hrE hrc
    rcases List.mem_map.mp hkB with ⟨c, hcm, hck⟩
    have hcq : c ∈ (synthCombos records).filter
        (fun c => (alistLookup (existing_record_map existing []) (comboKey c)).isNone) :=
      (List.mem_filter.mp hcm).1
    have hnone : (alistLookup (existing_record_map existing []) (comboKey c)).isNone :=
      (List.mem_filter.mp hcq).2
    rw [hck] at hnone
    rw [hrk] at hsome
    cases hlk : alistLookup (existing_record_map existing []) k
    · rw [hlk] at hsome; simp at hsome
    · rw [hlk] at hnone; simp at hnone

/-- C2 (corrected): when the existing mirror rows have pairwise-distinct
ids, the complete existing rows have pairwise-distinct keys, and the
(speaker, session, role) keys synthesized from the source rows are
pairwise distinct, then after one run of the dedup job (either mode) the
complete mirror rows realize each (speaker, session, role) triple at most
once.  Without the third hypothesis the property fails: a source row whose
link list repeats a session id makes the job create duplicate rows. -/
theorem c2_dedup_triple_uniqueness (records : List SpeakerRecord) (existing : List MirrorRecord)
    (fc : Bool) (H1 : (existing.map (fun r => r.id)).Nodup)
    (H2 : ((existing.filter completeRow).map rowKey).Nodup)
    (H3 : ((synthCombos records).map comboKey).Nodup) :
    (((applyDedupPlan existing (process_airtable_data_plan records existing fc)).filter
        completeRow).map rowTriple).Nodup := by
  have h := dedup_post_keys_nodup records existing fc H1 H2 H3
  have hmm : (((applyDedupPlan existing (process_airtable_data_plan records existing fc)).filter
        completeRow).map rowKey)
      = ((((applyDedupPlan existing (process_airtable_data_plan records existing fc)).filter
          completeRow).map rowTriple).map (fun t => mkKey t.1 t.2.1 t.2.2)) := by
    rw [List.map_map]
    rfl
  rw [hmm] at h
  exact List.Nodup.of_map _ h

theorem c2_witness :
    (([MirrorRecord.mk "r1" ⟨"Bob", ["spkOld"], ["sOld"], "Speaking", []⟩].map
        (fun r => r.id)).Nodup)
    ∧ ((([MirrorRecord.mk "r1" ⟨"Bob", ["spkOld"], ["sOld"], "Speaking", []⟩].filter
        completeRow).map rowKey).Nodup)
    ∧ (((synthCombos [⟨"spk1", "Alice", [], LinkField.many ["s1"], LinkField.absent⟩]).map
        comboKey).Nodup)
    ∧ (((applyDedupPlan [MirrorRecord.mk "r1" ⟨"Bob", ["spkOld"], ["sOld"], "Speaking", []⟩]
          (process_airtable_data_plan [⟨"spk1", "Alice", [], LinkField.many ["s1"], LinkField.absent⟩]
            [MirrorRecord.mk "r1" ⟨"Bob", ["spkOld"], ["sOld"], "Speaking", []⟩] true)).filter
        completeRow).map rowTriple).Nodup :=
  ⟨by decide, by decide, by decide,
    c2_dedup_triple_uniqueness [⟨"spk1", "Alice", [], LinkField.many ["s1"], LinkField.absent⟩]
      [MirrorRecord.mk "r1" ⟨"Bob", ["spkOld"], ["sOld"], "Speaking", []⟩] true
      (by decide) (by decide) (by decide)⟩

theorem c2_counterexample :
    ¬ (((applyDedupPlan []
          (process_airtable_data_plan
            [⟨"spk1", "Alice", [], LinkField.many ["s1", "s1"], LinkField.absent⟩] [] true)).filter
        completeRow).map rowTriple).Nodup := by
  decide

/-- Every key of a complete surviving row is the key of a complete existing
row whose id was not queued for deletion. -/
theorem dedup_survivor_mem (records : List SpeakerRecord) (existing : List MirrorRecord)
    (fc : Bool) (H1 : (existing.map (fun r => r.id)).Nodup) :
    ∀ k, k ∈ (((existing.map
          (applyUpdatesTo (process_airtable_data_plan records existing fc).recordsToUpdate)).filter
        (fun r => r.id ∉ (process_airtable_data_plan records existing fc).recordsToDelete)).filter
      completeRow).map rowKey →
      ∃ r ∈ existing, completeRow r ∧ rowKey r = k ∧
        r.id ∉ (process_airtable_data_plan records existing fc).recordsToDelete := by
  intro k hk
  rcases List.mem_map.mp hk with ⟨x, hx, hxk⟩
  have hx1 := List.mem_filter.mp hx
  have hx2 := List.mem_filter.mp hx1.1
  rcases List.mem_map.mp hx2.1 with ⟨r, hr, hFr⟩
  have hpw := applyUpdates_pointwise records existing fc H1 r hr
  have hrc : completeRow r := by
    cases hcr : completeRow r
    · exfalso
      have hid := hpw.2.2 hcr
      rw [hid] at hFr
      rw [hFr] at hcr
      exact Bool.false_ne_true (hcr.symm.trans hx1.2)
    · rfl
  refine ⟨r, hr, hrc, ?_, ?_⟩
  · rw [← hxk, ← hFr]
    exact hpw.2.1.symm
  · have hidx : x.id = r.id := by rw [← hFr]; exact hpw.1
    have hg := hx2.2
    simp only [decide_eq_true_eq] at hg
    rw [hidx] at hg
    exact hg

/-- Full-cleanup key-set correspondence: after one full-cleanup run, a key
labels some complete mirror row exactly when it is a synthesized
combination of the source rows. -/
theorem dedup_full_key_iff (records : List SpeakerRecord) (existing : List MirrorRecord)
    (H1 : (existing.map (fun r => r.id)).Nodup)
    (H2 : ((existing.filter completeRow).map rowKey).Nodup)
    (Hwf : ∀ c ∈ synthCombos records, c.recordId ≠ "" ∧ c.sessionId ≠ "") :
    ∀ k, k ∈ (((applyDedupPlan existing (process_airtable_data_plan records existing true)).filter
        completeRow).map rowKey) ↔ k ∈ validCombinations records := by
  intro k
  constructor
  · intro hk
    simp only [applyDedupPlan, List.filter_append, List.map_append] at hk
    rcases List.mem_append.mp hk with hkA | hkB
    · rcases dedup_survivor_mem records existing true H1 k hkA with ⟨r, hr, hrc, hrk, hnd⟩
      by_contra hnv
      apply hnd
      rw [plan_deletes, if_pos rfl]
      apply (deleteIdsFull_mem _ _ r.id).mpr
      refine ⟨rowKey r, ?_, ?_⟩
      · exact alistLookup_mem _ _ _ (existing_record_map_lookup_eq existing H2 r hr hrc)
      · rw [hrk]; exact hnv
    · rw [dedup_fresh_keys] at hkB
      rcases List.mem_map.mp hkB with ⟨c, hcm, hck⟩
      have hc : c ∈ synthCombos records :=
        (List.mem_filter.mp (List.mem_filter.mp hcm).1).1
      rw [← hck]
      exact List.mem_map_of_mem comboKey hc
  · intro hkv
    rcases List.mem_map.mp hkv with ⟨c, hc, hck⟩
    have hrole : c.role ≠ "" := by
      rcases synthCombos_role records c hc with h | h <;> rw [h] <;> decide
    cases hlk : alistLookup (existing_record_map existing []) (comboKey c) with
    | none =>
        have hcq : c ∈ (synthCombos records).filter
            (fun c => (alistLookup (existing_record_map existing []) (comboKey c)).isNone) :=
          List.mem_filter.mpr ⟨hc, by simp [hlk]⟩
        have hmem : comboFields c
            ∈ (process_airtable_data_plan records existing true).recordsToCreate := by
          rw [plan_creates, classifyCombos_fst]
          exact List.mem_map_of_mem comboFields hcq
        rcases freshRows_of_mem 0 _ (comboFields c) hmem with ⟨r, hrm, hrf⟩
        obtain ⟨rid, rflds⟩ := r
        simp only at hrf
        subst hrf
        have hrc : completeRow (MirrorRecord.mk rid (comboFields c)) = true :=
          comboFields_complete rid c (Hwf c hc).1 (Hwf c hc).2 hrole
        simp only [applyDedupPlan, List.filter_append, List.map_append]
        apply List.mem_append.mpr
        right
        apply List.mem_map.mpr
        refine ⟨MirrorRecord.mk rid (comboFields c), List.mem_filter.mpr ⟨hrm, hrc⟩, ?_⟩
        rw [comboFields_rowKey, hck]
    | some rid =>
        rcases existing_record_map_lookup_src existing [] (comboKey c) rid hlk
          with ⟨r, hr, hrc, hrk, hrid⟩ | hacc
        swap
        · simp [alistLookup] at hacc
        have hpw := applyUpdates_pointwise records existing true H1 r hr
        have hnd : r.id ∉ (process_airtable_data_plan records existing true).recordsToDelete := by
          rw [plan_deletes, if_pos rfl]
          intro hmem
          rcases (deleteIdsFull_mem _ _ r.id).mp hmem with ⟨k2, hk2m, hk2nv⟩
          have hfst := existing_record_map_fst_nodup existing [] (by simp)
          have hlk2 : alistLookup (existing_record_map existing []) k2 = some r.id :=
            alistLookup_of_mem_nodup _ _ _ hfst hk2m
          have hkk : k2 = comboKey c :=
            existing_record_map_value_inj existing H1 k2 (comboKey c) r.id hlk2
              (by rw [hlk, hrid])
          apply hk2nv
          rw [hkk]
          exact List.mem_map_of_mem comboKey hc
        have hFc : completeRow (applyUpdatesTo
            (process_airtable_data_plan records existing true).recordsToUpdate r) = true := by
          rcases applyUpdatesTo_cases
              (process_airtable_data_plan records existing true).recordsToUpdate r
            with heq | ⟨u, hu, hud, heq⟩
          · rw [heq]; exact hrc
          · rcases plan_update_src records existing true u hu
              with ⟨r2, hr2, hr2c, hu1, c2, hc2, hu2, hck2⟩
            rw [heq, hu2]
            have hrole2 : c2.role ≠ "" := by
              rcases synthCombos_role records c2 hc2 with h | h <;> rw [h] <;> decide
            exact comboFields_complete _ c2 (Hwf c2 hc2).1 (Hwf c2 hc2).2 hrole2
        simp only [applyDedupPlan, List.filter_append, List.map_append]
        apply List.mem_append.mpr
        left
        apply List.mem_map.mpr
        refine ⟨applyUpdatesTo (process_airtable_data_plan records existing true).recordsToUpdate r,
          List.mem_filter.mpr ⟨List.mem_filter.mpr ⟨List.mem_map.mpr ⟨r, hr, rfl⟩, ?_⟩, hFc⟩, ?_⟩
        · simp only [decide_eq_true_eq, hpw.1]
          exact hnd
        · rw [hpw.2.1, hrk, hck]

/-- C3 (corrected): in full-cleanup mode, provided the existing mirror rows
have pairwise-distinct ids, the complete existing rows have
pairwise-distinct keys, and every synthesized combination carries a
non-empty speaker id and session id, one run makes the keys of the COMPLETE
mirror rows coincide exactly with the synthesized (speaker, session, role)
set, and a second full-cleanup run with the same source rows plans zero
creations and zero deletions — but not zero updates: it re-issues one
(idempotent) update per synthesized combination, so the claimed
zero-creates/updates/deletes is wrong about updates.  Incomplete mirror
rows survive every run unseen, which is why the key-set equality is
restricted to complete rows. -/
theorem c3_full_cleanup_convergence (records : List SpeakerRecord) (existing : List MirrorRecord)
    (H1 : (existing.map (fun r => r.id)).Nodup)
    (H2 : ((existing.filter completeRow).map rowKey).Nodup)
    (Hwf : ∀ c ∈ synthCombos records, c.recordId ≠ "" ∧ c.sessionId ≠ "") :
    (∀ k, k ∈ (((applyDedupPlan existing (process_airtable_data_plan records existing true)).filter
        completeRow).map rowKey) ↔ k ∈ validCombinations records)
    ∧ (process_airtable_data_plan records
        (applyDedupPlan existing (process_airtable_data_plan records existing true))
        true).recordsToCreate = []
    ∧ (process_airtable_data_plan records
        (applyDedupPlan existing (process_airtable_data_plan records existing true))
        true).recordsToDelete = []
    ∧ (process_airtable_data_plan records
        (applyDedupPlan existing (process_airtable_data_plan records existing true))
        true).recordsToUpdate.length = (synthCombos records).length := by
  have hiff := dedup_full_key_iff records existing H1 H2 Hwf
  have hsome : ∀ c ∈ synthCombos records,
      (alistLookup (existing_record_map
        (applyDedupPlan existing (process_airtable_data_plan records existing true)) [])
        (comboKey c)).isSome = true := by
    intro c hc
    have hmem : comboKey c
        ∈ (((applyDedupPlan existing (process_airtable_data_plan records existing true)).filter
          completeRow).map rowKey) :=
      (hiff (comboKey c)).mpr (List.mem_map_of_mem comboKey hc)
    rcases List.mem_map.mp hmem with ⟨x, hx, hxk⟩
    have := existing_record_map_isSome
      (applyDedupPlan existing (process_airtable_data_plan records existing true)) [] x
      (List.mem_filter.mp hx).1 (List.mem_filter.mp hx).2
    rw [hxk] at this
    exact this
  refine ⟨hiff, ?_, ?_, ?_⟩
  · rw [plan_creates, classifyCombos_fst]
    have hnil : (synthCombos records).filter
        (fun c => (alistLookup (existing_record_map
          (applyDedupPlan existing (process_airtable_data_plan records existing true)) [])
          (comboKey c)).isNone) = [] := by
      apply List.filter_eq_nil_iff.mpr
      intro c hc
      have hs := hsome c hc
      cases hl : alistLookup (existing_record_map
          (applyDedupPlan existing (process_airtable_data_plan records existing true)) [])
          (comboKey c)
      · rw [hl] at hs; simp at hs
      · simp [hl]
    rw [hnil]
    rfl
  · rw [plan_deletes, if_pos rfl]
    apply deleteIdsFull_eq_nil
    intro p hp
    obtain ⟨k2, rid⟩ := p
    have hfst := existing_record_map_fst_nodup
      (applyDedupPlan existing (process_airtable_data_plan records existing true)) [] (by simp)
    have hlkp : alistLookup (existing_record_map
        (applyDedupPlan existing (process_airtable_data_plan records existing true)) []) k2
        = some rid :=
      alistLookup_of_mem_nodup _ _ _ hfst hp
    rcases existing_record_map_lookup_src _ [] k2 rid hlkp with ⟨x, hx, hxc, hxk, _⟩ | hacc
    · exact (hiff k2).mp (List.mem_map.mpr ⟨x, List.mem_filter.mpr ⟨hx, hxc⟩, hxk⟩)
    · simp [alistLookup] at hacc
  · rw [plan_updates, classifyCombos_snd_length]
    have hall : (synthCombos records).filter
        (fun c => (alistLookup (existing_record_map
          (applyDedupPlan existing (process_airtable_data_plan records existing true)) [])
          (comboKey c)).isSome) = synthCombos records :=
      List.filter_eq_self.mpr hsome
    rw [hall]

theorem c3_witness :
    (([MirrorRecord.mk "r1" ⟨"Bob", ["spkOld"], ["sOld"], "Speaking", []⟩].map
        (fun r => r.id)).Nodup)
    ∧ ((([MirrorRecord.mk "r1" ⟨"Bob", ["spkOld"], ["sOld"], "Speaking", []⟩].filter
        completeRow).map rowKey).Nodup)
    ∧ (∀ c ∈ synthCombos [⟨"spk1", "Alice", [], LinkField.many ["s1"], LinkField.absent⟩],
        c.recordId ≠ "" ∧ c.sessionId ≠ "")
    ∧ (process_airtable_data_plan [⟨"spk1", "Alice", [], LinkField.many ["s1"], LinkField.absent⟩]
        (applyDedupPlan [MirrorRecord.mk "r1" ⟨"Bob", ["spkOld"], ["sOld"], "Speaking", []⟩]
          (process_airtable_data_plan
            [⟨"spk1", "Alice", [], LinkField.many ["s1"], LinkField.absent⟩]
            [MirrorRecord.mk "r1" ⟨"Bob", ["spkOld"], ["sOld"], "Speaking", []⟩] true))
        true).recordsToCreate = [] :=
  ⟨by decide, by decide, by decide,
    (c3_full_cleanup_convergence
      [⟨"spk1", "Alice", [], LinkField.many ["s1"], LinkField.absent⟩]
      [MirrorRecord.mk "r1" ⟨"Bob", ["spkOld"], ["sOld"], "Speaking", []⟩]
      (by decide) (by decide) (by decide)).2.1⟩

theorem c3_counterexample :
    (process_airtable_data_plan [⟨"spk1", "Alice", [], LinkField.many ["s1"], LinkField.absent⟩]
      (applyDedupPlan []
        (process_airtable_data_plan
          [⟨"spk1", "Alice", [], LinkField.many ["s1"], LinkField.absent⟩] [] true))
      true).recordsToUpdate ≠ [] := by
  decide

/-- C5 (corrected): with pairwise-distinct existing row ids and
pairwise-distinct complete existing keys, a mirror row's id is queued for
deletion in full-cleanup mode exactly when the row is COMPLETE and its key
is absent from the synthesized combinations — an incomplete row is never
deleted, and without the key-uniqueness hypothesis a row shadowed in the
lookup map by a later row with the same key escapes deletion even though
its key is absent.  In incremental mode the completeness requirement
disappears and is replaced by the speaker-reference restriction: the row's
id is queued exactly when its speaker reference is among the fetched source
row ids and its key is absent — so the two modes do not differ merely by
the extra speaker restriction. -/
theorem c5_delete_criteria (records : List SpeakerRecord) (existing : List MirrorRecord)
    (H1 : (existing.map (fun r => r.id)).Nodup)
    (H2 : ((existing.filter completeRow).map rowKey).Nodup) :
    (∀ er ∈ existing,
      (er.id ∈ (process_airtable_data_plan records existing true).recordsToDelete
        ↔ (completeRow er = true ∧ rowKey er ∉ validCombinations records)))
    ∧ (∀ er ∈ existing,
      (er.id ∈ (process_airtable_data_plan records existing false).recordsToDelete
        ↔ (speakerRef er ∈ records.map (fun r => r.id)
            ∧ rowKey er ∉ validCombinations records))) := by
  constructor
  · intro er her
    rw [plan_deletes, if_pos rfl]
    constructor
    · intro hmem
      rcases (deleteIdsFull_mem _ _ er.id).mp hmem with ⟨k, hkm, hknv⟩
      have hfst := existing_record_map_fst_nodup existing [] (by simp)
      have hlk : alistLookup (existing_record_map existing []) k = some er.id :=
        alistLookup_of_mem_nodup _ _ _ hfst hkm
      rcases existing_record_map_lookup_src existing [] k er.id hlk
        with ⟨r, hr, hrc, hrk, hrid⟩ | hacc
      · have : r = er := List.inj_on_of_nodup_map H1 hr her hrid
        subst this
        refine ⟨hrc, ?_⟩
        rw [hrk]
        exact hknv
      · simp [alistLookup] at hacc
    · rintro ⟨hc, hnv⟩
      apply (deleteIdsFull_mem _ _ er.id).mpr
      exact ⟨rowKey er,
        alistLookup_mem _ _ _ (existing_record_map_lookup_eq existing H2 er her hc), hnv⟩
  · intro er her
    rw [plan_deletes]
    simp only [Bool.false_eq_true, if_false]
    constructor
    · intro hmem
      rcases (deleteIdsIncr_mem _ _ _ er.id).mp hmem with ⟨e2, he2, hid, hcond⟩
      have : e2 = er := List.inj_on_of_nodup_map H1 he2 her hid
      subst this
      exact hcond
    · intro hcond
      exact (deleteIdsIncr_mem _ _ _ er.id).mpr ⟨er, her, rfl, hcond⟩

theorem c5_witness :
    (([MirrorRecord.mk "r1" ⟨"A", ["spk"], ["s"], "Speaking", []⟩].map (fun r => r.id)).Nodup)
    ∧ ((([MirrorRecord.mk "r1" ⟨"A", ["spk"], ["s"], "Speaking", []⟩].filter
        completeRow).map rowKey).Nodup)
    ∧ "r1" ∈ (process_airtable_data_plan []
        [MirrorRecord.mk "r1" ⟨"A", ["spk"], ["s"], "Speaking", []⟩] true).recordsToDelete :=
  ⟨by decide, by decide,
    ((c5_delete_criteria [] [MirrorRecord.mk "r1" ⟨"A", ["spk"], ["s"], "Speaking", []⟩]
        (by decide) (by decide)).1
      (MirrorRecord.mk "r1" ⟨"A", ["spk"], ["s"], "Speaking", []⟩)
      (by decide)).mpr (by decide)⟩

theorem c5_counterexample :
    completeRow (MirrorRecord.mk "r1" ⟨"A", ["spk"], ["s"], "Speaking", []⟩) = true
    ∧ rowKey (MirrorRecord.mk "r1" ⟨"A", ["spk"], ["s"], "Speaking", []⟩)
        ∉ validCombinations []
    ∧ "r1" ∉ (process_airtable_data_plan []
        [MirrorRecord.mk "r1" ⟨"A", ["spk"], ["s"], "Speaking", []⟩,
         MirrorRecord.mk "r2" ⟨"A", ["spk"], ["s"], "Speaking", []⟩] true).recordsToDelete
    ∧ "r2" ∈ (process_airtable_data_plan []
        [MirrorRecord.mk "r1" ⟨"A", ["spk"], ["s"], "Speaking", []⟩,
         MirrorRecord.mk "r2" ⟨"A", ["spk"], ["s"], "Speaking", []⟩] true).recordsToDelete := by
  refine ⟨by decide, by decide, by decide, by decide⟩


theorem chunks10F_flatten {α : Type} :
    ∀ (fuel : Nat) (l : List α), l.length ≤ fuel → (chunks10F fuel l).flatten = l := by
  intro fuel
  induction fuel with
  | zero =>
      intro l h
      rw [Nat.le_zero] at h
      rw [List.length_eq_zero] at h
      subst h
      rfl
  | succ f ih =>
      intro l h
      cases l with
      | nil => rfl
      | cons c cs =>
          simp only [chunks10F, List.flatten_cons]
          rw [ih ((c :: cs).drop 10) (by simp at h ⊢; omega)]
          exact List.take_append_drop 10 (c :: cs)

theorem chunks10F_mem {α : Type} :
    ∀ (fuel : Nat) (l : List α) (b : List α),
      b ∈ chunks10F fuel l → b ≠ [] ∧ b.length ≤ 10 := by
  intro fuel
  induction fuel with
  | zero => intro l b h; simp [chunks10F] at h
  | succ f ih =>
      intro l b h
      cases l with
      | nil => simp [chunks10F] at h
      | cons c cs =>
          simp only [chunks10F] at h
          rcases List.mem_cons.mp h with rfl | hmem
          · constructor
            · simp
            · simp [List.length_take]
          · exact ih _ b hmem

theorem chunks10F_full {α : Type} :
    ∀ (fuel : Nat) (l : List α) (i : Nat) (b : List α),
      (chunks10F fuel l).get? i = some b → i + 1 < (chunks10F fuel l).length →
      b.length = 10 := by
  intro fuel
  induction fuel with
  | zero => intro l i b h _; simp [chunks10F] at h
  | succ f ih =>
      intro l i b h hlt
      cases l with
      | nil => simp [chunks10F] at h
      | cons c cs =>
          simp only [chunks10F] at h hlt
          cases i with
          | zero =>
              simp only [List.get?_cons_zero, Option.some.injEq] at h
              subst h
              simp only [List.length_cons] at hlt
              have hne : chunks10F f ((c :: cs).drop 10) ≠ [] := by
                intro he
                rw [he] at hlt
                simp at hlt
              have hlen : 10 ≤ (c :: cs).length := by
                by_contra hs
                push_neg at hs
                have : (c :: cs).drop 10 = [] := by
                  rw [List.drop_eq_nil_iff_le]
                  omega
                apply hne
                rw [this]
                cases f <;> rfl
              simp only [List.length_cons] at hlen
              simp [List.length_take]
              omega
          | succ j =>
              simp only [List.get?_cons_succ] at h
              simp only [List.length_cons] at hlt
              exact ih _ j b h (by omega)

theorem batches10_flatten {α : Type} (l : List α) : (batches10 l).flatten = l :=
  chunks10F_flatten l.length l (Nat.le_refl _)

theorem phaseOps_mem {α : Type} (f : List α → Op) :
    ∀ (bs : List (List α)) (op : Op),
      op ∈ phaseOps f bs → (∃ b ∈ bs, op = f b) ∨ op = Op.sleep := by
  intro bs
  induction bs with
  | nil => intro op h; simp [phaseOps] at h
  | cons b rest ih =>
      intro op h
      simp only [phaseOps] at h
      rcases List.mem_cons.mp h with rfl | h2
      · exact Or.inl ⟨b, List.mem_cons_self _ _, rfl⟩
      · rcases List.mem_cons.mp h2 with rfl | h3
        · exact Or.inr rfl
        · rcases ih op h3 with ⟨b2, hb2, heq⟩ | heq
          · exact Or.inl ⟨b2, List.mem_cons_of_mem _ hb2, heq⟩
          · exact Or.inr heq

theorem phaseOps_filterMap_self {α : Type} (f : List α → Op)
    (ex : Op → Option (List α)) (hex : ∀ b, ex (f b) = some b) (hsl : ex Op.sleep = none) :
    ∀ (bs : List (List α)), (phaseOps f bs).filterMap ex = bs := by
  intro bs
  induction bs with
  | nil => rfl
  | cons b rest ih =>
      simp only [phaseOps, List.filterMap_cons, hex b, hsl, ih]

theorem phaseOps_filterMap_none {α β : Type} (f : List α → Op)
    (ex : Op → Option β) (hex : ∀ b, ex (f b) = none) (hsl : ex Op.sleep = none) :
    ∀ (bs : List (List α)), (phaseOps f bs).filterMap ex = [] := by
  intro bs
  induction bs with
  | nil => rfl
  | cons b rest ih =>
      simp only [phaseOps, List.filterMap_cons, hex b, hsl, ih]

theorem phaseOps_sleep_after {α : Type} (f : List α → Op) :
    ∀ (bs : List (List α)) (i : Nat) (op : Op),
      (phaseOps f bs).get? i = some op → op ≠ Op.sleep →
      (phaseOps f bs).get? (i + 1) = some Op.sleep := by
  intro bs
  induction bs with
  | nil => intro i op h _; simp [phaseOps] at h
  | cons b rest ih =>
      intro i op h hns
      simp only [phaseOps] at h ⊢
      match i with
      | 0 => rfl
      | 1 =>
          simp only [List.get?_cons_succ, List.get?_cons_zero, Option.some.injEq] at h
          exact absurd h.symm hns
      | j + 2 =>
          simp only [List.get?_cons_succ] at h ⊢
          exact ih j op h hns

theorem sleep_after_append :
    ∀ (X Y : List Op),
      (∀ i op, X.get? i = some op → op ≠ Op.sleep → X.get? (i + 1) = some Op.sleep) →
      (∀ i op, Y.get? i = some op → op ≠ Op.sleep → Y.get? (i + 1) = some Op.sleep) →
      ∀ i op, (X ++ Y).get? i = some op → op ≠ Op.sleep →
        (X ++ Y).get? (i + 1) = some Op.sleep := by
  intro X Y hX hY i op h hns
  by_cases hi : i < X.length
  · rw [List.get?_append hi] at h
    have h2 := hX i op h hns
    have hi2 : i + 1 < X.length := by
      rw [List.get?_eq_some] at h2
      exact h2.1
    rw [List.get?_append hi2]
    exact h2
  · push_neg at hi
    rw [List.get?_append_right hi] at h
    have hi1 : X.length ≤ i + 1 := by omega
    rw [List.get?_append_right hi1]
    have : i + 1 - X.length = (i - X.length) + 1 := by omega
    rw [this]
    exact hY (i - X.length) op h hns

theorem executePhases_create_lt_update (p : DedupPlan) :
    ∀ i j b b2, (executePhases p).get? i = some (Op.createBatch b) →
      (executePhases p).get? j = some (Op.updateBatch b2) → i < j := by
  intro i j b b2 hi hj
  have hassoc : executePhases p
      = phaseOps Op.createBatch (batches10 p.recordsToCreate)
        ++ (phaseOps Op.updateBatch (batches10 p.recordsToUpdate)
            ++ phaseOps Op.deleteBatch (batches10 p.recordsToDelete)) := by
    simp [executePhases, List.append_assoc]
  rw [hassoc] at hi hj
  have hilt : i < (phaseOps Op.createBatch (batches10 p.recordsToCreate)).length := by
    by_contra hge
    push_neg at hge
    rw [List.get?_append_right hge] at hi
    have hmem := List.get?_mem hi
    rcases List.mem_append.mp hmem with hm | hm
    · rcases phaseOps_mem _ _ _ hm with ⟨b3, _, heq⟩ | heq <;> simp at heq
    · rcases phaseOps_mem _ _ _ hm with ⟨b3, _, heq⟩ | heq <;> simp at heq
  have hjge : (phaseOps Op.createBatch (batches10 p.recordsToCreate)).length ≤ j := by
    by_contra hlt
    push_neg at hlt
    rw [List.get?_append hlt] at hj
    have hmem := List.get?_mem hj
    rcases phaseOps_mem _ _ _ hmem with ⟨b3, _, heq⟩ | heq <;> simp at heq
  omega

theorem executePhases_update_lt_delete (p : DedupPlan) :
    ∀ i j b b2, (executePhases p).get? i = some (Op.updateBatch b) →
      (executePhases p).get? j = some (Op.deleteBatch b2) → i < j := by
  intro i j b b2 hi hj
  simp only [executePhases] at hi hj
  have hilt : i < (phaseOps Op.createBatch (batches10 p.recordsToCreate)
      ++ phaseOps Op.updateBatch (batches10 p.recordsToUpdate)).length := by
    by_contra hge
    push_neg at hge
    rw [List.get?_append_right hge] at hi
    have hmem := List.get?_mem hi
    rcases phaseOps_mem _ _ _ hmem with ⟨b3, _, heq⟩ | heq <;> simp at heq
  have hjge : (phaseOps Op.createBatch (batches10 p.recordsToCreate)
      ++ phaseOps Op.updateBatch (batches10 p.recordsToUpdate)).length ≤ j := by
    by_contra hlt
    push_neg at hlt
    rw [List.get?_append hlt] at hj
    have hmem := List.get?_mem hj
    rcases List.mem_append.mp hmem with hm | hm
    · rcases phaseOps_mem _ _ _ hm with ⟨b3, _, heq⟩ | heq <;> simp at heq
    · rcases phaseOps_mem _ _ _ hm with ⟨b3, _, heq⟩ | heq <;> simp at heq
  omega

/-- C8: in every dedup run, the operation trace executes creations, then
updates, then deletions — every create-batch index precedes every
update-batch index, which precedes every delete-batch index — each phase's
batch sequence partitions exactly its operation list into slices of at most
10 rows (every batch is non-empty, and every batch except possibly the
phase's last has exactly 10), and every batch call is immediately followed
by a pause. -/
theorem c8_batched_phases (records : List SpeakerRecord) (existing : List MirrorRecord)
    (fc : Bool) :
    (∀ i j b b2,
      (executePhases (process_airtable_data_plan records existing fc)).get? i
          = some (Op.createBatch b) →
      (executePhases (process_airtable_data_plan records existing fc)).get? j
          = some (Op.updateBatch b2) → i < j)
    ∧ (∀ i j b b2,
      (executePhases (process_airtable_data_plan records existing fc)).get? i
          = some (Op.updateBatch b) →
      (executePhases (process_airtable_data_plan records existing fc)).get? j
          = some (Op.deleteBatch b2) → i < j)
    ∧ (executePhases (process_airtable_data_plan records existing fc)).filterMap
        (fun o => match o with | Op.createBatch b => some b | _ => none)
        = batches10 (process_airtable_data_plan records existing fc).recordsToCreate
    ∧ (executePhases (process_airtable_data_plan records existing fc)).filterMap
        (fun o => match o with | Op.updateBatch b => some b | _ => none)
        = batches10 (process_airtable_data_plan records existing fc).recordsToUpdate
    ∧ (executePhases (process_airtable_data_plan records existing fc)).filterMap
        (fun o => match o with | Op.deleteBatch b => some b | _ => none)
        = batches10 (process_airtable_data_plan records existing fc).recordsToDelete
    ∧ (batches10 (process_airtable_data_plan records existing fc).recordsToCreate).flatten
        = (process_airtable_data_plan records existing fc).recordsToCreate
    ∧ (batches10 (process_airtable_data_plan records existing fc).recordsToUpdate).flatten
        = (process_airtable_data_plan records existing fc).recordsToUpdate
    ∧ (batches10 (process_airtable_data_plan records existing fc).recordsToDelete).flatten
        = (process_airtable_data_plan records existing fc).recordsToDelete
    ∧ (∀ b ∈ batches10 (process_airtable_data_plan records existing fc).recordsToCreate,
        b ≠ [] ∧ b.length ≤ 10)
    ∧ (∀ b ∈ batches10 (process_airtable_data_plan records existing fc).recordsToUpdate,
        b ≠ [] ∧ b.length ≤ 10)
    ∧ (∀ b ∈ batches10 (process_airtable_data_plan records existing fc).recordsToDelete,
        b ≠ [] ∧ b.length ≤ 10)
    ∧ (∀ i b,
        (batches10 (process_airtable_data_plan records existing fc).recordsToCreate).get? i
            = some b →
        i + 1 < (batches10 (process_airtable_data_plan records existing fc).recordsToCreate).length
        → b.length = 10)
    ∧ (∀ i b,
        (batches10 (process_airtable_data_plan records existing fc).recordsToUpdate).get? i
            = some b →
        i + 1 < (batches10 (process_airtable_data_plan records existing fc).recordsToUpdate).length
        → b.length = 10)
    ∧ (∀ i b,
        (batches10 (process_airtable_data_plan records existing fc).recordsToDelete).get? i
            = some b →
        i + 1 < (batches10 (process_airtable_data_plan records existing fc).recordsToDelete).length
        → b.length = 10)
    ∧ (∀ i op,
        (executePhases (process_airtable_data_plan records existing fc)).get? i = some op →
        op ≠ Op.sleep →
        (executePhases (process_airtable_data_plan records existing fc)).get? (i + 1)
          = some Op.sleep) := by
  generalize process_airtable_data_plan records existing fc = p
  refine ⟨executePhases_create_lt_update p, executePhases_update_lt_delete p, ?_, ?_, ?_,
    batches10_flatten _, batches10_flatten _, batches10_flatten _,
    fun b hb => chunks10F_mem _ _ b hb,
    fun b hb => chunks10F_mem _ _ b hb,
    fun b hb => chunks10F_mem _ _ b hb,
    fun i b hb hl => chunks10F_full _ _ i b hb hl,
    fun i b hb hl => chunks10F_full _ _ i b hb hl,
    fun i b hb hl => chunks10F_full _ _ i b hb hl, ?_⟩
  · simp only [executePhases, List.filterMap_append]
    rw [phaseOps_filterMap_self Op.createBatch _ (fun b => rfl) rfl,
      phaseOps_filterMap_none Op.updateBatch _ (fun b => rfl) rfl,
      phaseOps_filterMap_none Op.deleteBatch _ (fun b => rfl) rfl]
    simp
  · simp only [executePhases, List.filterMap_append]
    rw [phaseOps_filterMap_none Op.createBatch _ (fun b => rfl) rfl,
      phaseOps_filterMap_self Op.updateBatch _ (fun b => rfl) rfl,
      phaseOps_filterMap_none Op.deleteBatch _ (fun b => rfl) rfl]
    simp
  · simp only [executePhases, List.filterMap_append]
    rw [phaseOps_filterMap_none Op.createBatch _ (fun b => rfl) rfl,
      phaseOps_filterMap_none Op.updateBatch _ (fun b => rfl) rfl,
      phaseOps_filterMap_self Op.deleteBatch _ (fun b => rfl) rfl]
    simp
  · simp only [executePhases]
    exact sleep_after_append _ _
      (sleep_after_append _ _
        (phaseOps_sleep_after Op.createBatch (batches10 p.recordsToCreate))
        (phaseOps_sleep_after Op.updateBatch (batches10 p.recordsToUpdate)))
      (phaseOps_sleep_after Op.deleteBatch (batches10 p.recordsToDelete))

theorem c8_witness :
    (executePhases (process_airtable_data_plan
        [⟨"spk1", "A", [], LinkField.many ["s1", "s2"], LinkField.absent⟩]
        [MirrorRecord.mk "r1" ⟨"A", ["spk1"], ["s1"], "Speaking", []⟩] false)).get? 0
      = some (Op.createBatch [⟨"A", ["spk1"], ["s2"], "Speaking", []⟩])
    ∧ (executePhases (process_airtable_data_plan
        [⟨"spk1", "A", [], LinkField.many ["s1", "s2"], LinkField.absent⟩]
        [MirrorRecord.mk "r1" ⟨"A", ["spk1"], ["s1"], "Speaking", []⟩] false)).get? 2
      = some (Op.updateBatch [("r1", ⟨"A", ["spk1"], ["s1"], "Speaking", []⟩)])
    ∧ 0 < 2 :=
  ⟨by decide, by decide,
    (c8_batched_phases [⟨"spk1", "A", [], LinkField.many ["s1", "s2"], LinkField.absent⟩]
        [MirrorRecord.mk "r1" ⟨"A", ["spk1"], ["s1"], "Speaking", []⟩] false).1
      0 2 [⟨"A", ["spk1"], ["s2"], "Speaking", []⟩]
      [("r1", ⟨"A", ["spk1"], ["s1"], "Speaking", []⟩)] (by decide) (by decide)⟩

theorem runEvents_none :
    ∀ (evs : List JobEv) (orc : Nat → Option String) (i : Nat) (t : List JobEv),
      runEvents evs orc i = (t, none) → t = evs := by
  intro evs
  induction evs with
  | nil =>
      intro orc i t h
      simp only [runEvents, Prod.mk.injEq] at h
      exact h.1.symm
  | cons e rest ih =>
      intro orc i t h
      simp only [runEvents] at h
      rcases hrec : runEvents rest orc (i + 1) with ⟨t2, r2⟩
      rw [hrec] at h
      cases horc : (if canRaise e then orc i else none) with
      | some msg => rw [horc] at h; simp at h
      | none =>
          rw [horc] at h
          simp only [Prod.mk.injEq] at h
          rw [← h.1, ih orc (i + 1) t2 (by rw [hrec, h.2])]

theorem runEvents_some :
    ∀ (evs : List JobEv) (orc : Nat → Option String) (i : Nat) (t : List JobEv) (m : String),
      runEvents evs orc i = (t, some m) → ∃ k, k < evs.length ∧ t = evs.take k := by
  intro evs
  induction evs with
  | nil =>
      intro orc i t m h
      simp only [runEvents, Prod.mk.injEq] at h
      exact absurd h.2 (by simp)
  | cons e rest ih =>
      intro orc i t m h
      simp only [runEvents] at h
      cases horc : (if canRaise e then orc i else none) with
      | some msg =>
          rw [horc] at h
          simp only [Prod.mk.injEq] at h
          exact ⟨0, by simp, h.1.symm⟩
      | none =>
          rw [horc] at h
          rcases hrec : runEvents rest orc (i + 1) with ⟨t2, r2⟩
          rw [hrec] at h
          simp only [Prod.mk.injEq] at h
          rcases ih orc (i + 1) t2 m (by rw [hrec, h.2]) with ⟨k, hk, ht⟩
          refine ⟨k + 1, by simp only [List.length_cons]; omega, ?_⟩
          rw [← h.1, List.take_succ_cons, ← ht]

theorem opEv_ne_watermark : ∀ op, opEv op ≠ JobEv.writeWatermark := by
  intro op
  cases op <;> simp [opEv]

/-- The watermark write appears in the planned event sequence only as its
very last event, after every batch operation. -/
theorem dedupJobPlan_watermark_pos (records : List SpeakerRecord) (existing : List MirrorRecord)
    (fc : Bool) :
    ∀ n, (dedupJobPlan records existing fc).get? n = some JobEv.writeWatermark →
      n = (dedupJobPlan records existing fc).length - 1 := by
  intro n h
  simp only [dedupJobPlan] at h ⊢
  match n with
  | 0 => simp at h
  | 1 => simp at h
  | j + 2 =>
      simp only [List.get?_cons_succ] at h
      by_cases hj : j < ((executePhases (process_airtable_data_plan records existing fc)).map
          opEv).length
      · exfalso
        rw [List.get?_append hj] at h
        have hmem := List.get?_mem h
        rcases List.mem_map.mp hmem with ⟨op, _, heq⟩
        exact opEv_ne_watermark op heq
      · push_neg at hj
        rw [List.get?_append_right hj] at h
        have hj0 : j - ((executePhases (process_airtable_data_plan records existing fc)).map
            opEv).length = 0 := by
          by_contra hne
          rw [List.get?_eq_some] at h
          rcases h with ⟨hlt, _⟩
          simp only [List.length_cons, List.length_nil] at hlt
          omega
        simp only [List.length_cons, List.length_append, List.length_cons, List.length_nil]
        omega

theorem dedupJobPlan_getLast (records : List SpeakerRecord) (existing : List MirrorRecord)
    (fc : Bool) :
    (dedupJobPlan records existing fc).getLast? = some JobEv.writeWatermark := by
  have hshape : dedupJobPlan records existing fc
      = (JobEv.fetchSource :: JobEv.fetchDest ::
          (executePhases (process_airtable_data_plan records existing fc)).map opEv)
        ++ [JobEv.writeWatermark] := by
    simp [dedupJobPlan]
  rw [hshape]
  exact List.getLast?_concat _

/-- C7: under any failure behaviour of the fetches and batch API calls, a
run of process_airtable_data exits with code 0 or 1; on exit 0 the
completed trace is the whole planned sequence, whose final event is the
sync-watermark write (so the watermark is recorded only after every batch
succeeded); on exit 1 the watermark write is absent from the completed
trace — the watermark state is untouched — and the run's last visible event
is the printed error line carrying the triggering message. -/
theorem c7_watermark_and_exit (records : List SpeakerRecord) (existing : List MirrorRecord)
    (fc : Bool) (orc : Nat → Option String) :
    ((process_airtable_data_run records existing fc orc).2 = 0
      ∨ (process_airtable_data_run records existing fc orc).2 = 1)
    ∧ ((process_airtable_data_run records existing fc orc).2 = 0 →
        (process_airtable_data_run records existing fc orc).1 = dedupJobPlan records existing fc
        ∧ (process_airtable_data_run records existing fc orc).1.getLast?
            = some JobEv.writeWatermark)
    ∧ ((process_airtable_data_run records existing fc orc).2 = 1 →
        JobEv.writeWatermark ∉ (process_airtable_data_run records existing fc orc).1
        ∧ ∃ m, (process_airtable_data_run records existing fc orc).1.getLast?
            = some (JobEv.logLine ("ERROR: An error occurred: " ++ m))) := by
  rcases hres : runEvents (dedupJobPlan records existing fc) orc 0 with ⟨t, res⟩
  cases res with
  | none =>
      have ht : t = dedupJobPlan records existing fc := runEvents_none _ orc 0 t hres
      have hrn : process_airtable_data_run records existing fc orc = (t, 0) := by
        simp [process_airtable_data_run, hres]
      rw [hrn]
      refine ⟨Or.inl rfl, fun _ => ⟨ht, ?_⟩, fun h => by simp at h⟩
      rw [ht]
      exact dedupJobPlan_getLast records existing fc
  | some m =>
      rcases runEvents_some _ orc 0 t m hres with ⟨k, hk, ht⟩
      have hrn : process_airtable_data_run records existing fc orc
          = (t ++ [JobEv.logLine ("ERROR: An error occurred: " ++ m)], 1) := by
        simp [process_airtable_data_run, hres]
      rw [hrn]
      refine ⟨Or.inr rfl, fun h => by simp at h, fun _ => ⟨?_, m, ?_⟩⟩
      · intro hmem
        rcases List.mem_append.mp hmem with hmt | hml
        · rw [ht] at hmt
          rcases List.mem_iff_get?.mp hmt with ⟨n, hn⟩
          have hnlt : n < ((dedupJobPlan records existing fc).take k).length := by
            rw [List.get?_eq_some] at hn
            exact hn.1
          simp only [List.length_take] at hnlt
          have hnk : n < k := lt_of_lt_of_le hnlt (min_le_left _ _)
          rw [List.get?_take hnk] at hn
          have := dedupJobPlan_watermark_pos records existing fc n hn
          omega
        · simp at hml
      · exact List.getLast?_concat _

theorem c7_witness :
    (process_airtable_data_run [] [] true (fun _ => some "boom")).2 = 1
    ∧ JobEv.writeWatermark ∉ (process_airtable_data_run [] [] true (fun _ => some "boom")).1
    ∧ ∃ m, (process_airtable_data_run [] [] true (fun _ => some "boom")).1.getLast?
        = some (JobEv.logLine ("ERROR: An error occurred: " ++ m)) := by
  refine ⟨by decide, ?_, ?_⟩
  · exact ((c7_watermark_and_exit [] [] true (fun _ => some "boom")).2.2 (by decide)).1
  · exact ((c7_watermark_and_exit [] [] true (fun _ => some "boom")).2.2 (by decide)).2
